import Mathlib

/-!
Shallow embedding of the core of the computer-use-agent toolkit:
the hook pipeline (`hooks.ts`), the workflow engine (`workflow.ts`),
the action executor (`actions.ts`), and the agent orchestration loop
(`agent.ts`).  External collaborators (the robot backend, the screen
capture library, the reasoning service) are modelled as oracles inside
an environment record; timing-only behaviour (rate limiting, safety
delays, the unused `duration` / `interval` parameters) is omitted since
it has no observable effect beyond real time.

JavaScript exceptions are modelled with a state-carrying result type
`ERes`: a callback that throws may still have mutated the shared context
first, so both outcomes carry the context.  A value of shape `ERes.err`
at the top level of a function models an exception propagating out of
that function.
-/

/-- Mirrors the `ActionType` string enum of `types.ts`. -/
inductive ActionType where
  | screenshot
  | mouseMove
  | click
  | doubleClick
  | typeAction
  | key
  | scroll
  deriving DecidableEq, Repr

/-- Mirrors the `MouseButton` string enum of `types.ts`. -/
inductive MouseButton where
  | left
  | right
  | middle
  deriving DecidableEq, Repr

/-- Mirrors the `ScrollDirection` string enum of `types.ts`. -/
inductive ScrollDirection where
  | up
  | down
  | left
  | right
  deriving DecidableEq, Repr

/-- Mirrors the `ScreenRegion` interface of `types.ts` (JS numbers as `Int`). -/
structure ScreenRegion where
  x : Int
  y : Int
  width : Int
  height : Int
  deriving DecidableEq, Repr

/-- The shapes of the `data` records the source attaches to an
`ActionResult`: the dry-run marker, the per-action echo records built in
`actions.ts`, the screenshot image of `agent.ts`, and the wrapped return
value of a custom tool.  Fields that can be `undefined` in JS (untyped
inputs forwarded by `agent.ts`) are `Option`s. -/
inductive ActionData where
  | dryRun
  | moveData (x y : Option Int)
  | clickData (x y : Option Int) (button : MouseButton) (clicks : Nat)
  | typeData (text : Option String) (len : Nat)
  | keyData (key : Option String)
  | scrollData (direction : Option ScrollDirection) (amount : Int)
  | image (b64 : String)
  | customResult (v : String)
  deriving DecidableEq, Repr

/-- Mirrors the `ActionResult` interface of `types.ts`. -/
structure ActionResult where
  success : Bool
  actionType : ActionType
  error : Option String := none
  data : Option ActionData := none
  deriving DecidableEq, Repr

/-- The structured input of a tool call as used by the built-in actions.
Every field is optional because the reasoning service sends untyped JSON
and `agent.ts` forwards the fields without checking presence.  The dead
`duration` and `interval` fields (accepted but never used by the robot
backend) are omitted. -/
structure ToolInput where
  x : Option Int := none
  y : Option Int := none
  button : Option MouseButton := none
  clicks : Option Nat := none
  text : Option String := none
  key : Option String := none
  direction : Option ScrollDirection := none
  amount : Option Int := none
  deriving DecidableEq, Repr

/-- Mirrors the `AgentContext` class of `types.ts`: the mutable state bag
shared by reference with every callback. -/
structure AgentContext where
  state : List (String × String) := []
  iteration : Nat := 0
  actionHistory : List ActionResult := []
  lastScreenshot : Option String := none
  deriving DecidableEq, Repr

/-- State-carrying result of a possibly-throwing computation: a JS
callback that throws has still performed its mutations, so the state is
available in both branches. -/
inductive ERes (σ : Type) (α : Type) where
  | ok (s : σ) (a : α)
  | err (s : σ) (e : String)
  deriving Repr

/-- The state reached by a computation, whether it returned or threw. -/
def ERes.stateOf : ERes σ α → σ
  | .ok s _ => s
  | .err s _ => s

/-- `true` iff the computation returned normally. -/
def ERes.isOk : ERes σ α → Bool
  | .ok _ _ => true
  | .err _ _ => false

/-- The returned value of a computation, `none` if it threw. -/
def ERes.okVal? : ERes σ α → Option α
  | .ok _ a => some a
  | .err _ _ => none

/-- Instrumentation events.  An event is appended exactly where the
source invokes the corresponding component, so "component X is never
reached on this path" is expressed as "no X event is appended". -/
inductive Event where
  | onToolCallFired
  | beforeActionFired
  | afterActionFired
  | condCheck (kind : String)
  | condPairEval (kind : String) (idx : Nat)
  | customToolExec (name : String)
  | screenshotTaken
  | reasoningCall (k : Nat)
  | iterStartFired (i : Nat)
  | iterEndFired (i : Nat)
  deriving DecidableEq, Repr

/-- A content block of a conversation message (`image`, `text`,
`tool_use`, `tool_result`). -/
inductive ContentBlock where
  | image (b64 : String)
  | text (t : String)
  | toolUse (id : String) (name : String) (input : ToolInput)
  | toolResult (toolUseId : String) (content : List ContentBlock)
  deriving Repr

/-- A conversation message: role plus ordered content blocks. -/
structure Message where
  role : String
  content : List ContentBlock
  deriving Repr

/-- A reply of the external reasoning service: its stop signal and its
ordered content blocks. -/
structure ReasoningResponse where
  stopReason : String
  content : List ContentBlock
  deriving Repr

/-- The record returned by `ComputerUseAgent.run`: either the failure
record built in the catch clause or the success record built after the
loop. -/
inductive RunResult where
  | failure (error : String) (iteration : Nat) (stateMap : List (String × String))
  | success (iterations : Nat) (stateMap : List (String × String))
      (actionHistory : List ActionResult)
  deriving Repr

/-- The iteration count reported by a success record, `none` for a
failure record. -/
def RunResult.iterationsOf? : RunResult → Option Nat
  | .success n _ _ => some n
  | .failure _ _ _ => none

/-- Loop control signal of one pass of the agent loop. -/
inductive TurnSignal where
  | breakLoop
  | continueLoop
  deriving DecidableEq, Repr

/-- The observable machine state threaded through the agent: the shared
context, the conversation, and instrumentation counters/trace. -/
structure St where
  ctx : AgentContext := {}
  messages : List Message := []
  robotCalls : Nat := 0
  screenshotCalls : Nat := 0
  reasoningCalls : Nat := 0
  trace : List Event := []
  deriving Repr

/-- A non-mutation-chaining hook (before-screenshot shape). -/
abbrev CtxHook := AgentContext → ERes AgentContext Unit

/-- An after-screenshot hook (receives the captured image). -/
abbrev ImgHook := AgentContext → String → ERes AgentContext Unit

/-- A mutation-chaining hook (before-action, named on-tool-call):
returning `none` models returning `undefined`. -/
abbrev MutHook := AgentContext → ToolInput → ERes AgentContext (Option ToolInput)

/-- A wildcard on-tool-call hook (additionally receives the tool name). -/
abbrev StarHook :=
  AgentContext → String → ToolInput → ERes AgentContext (Option ToolInput)

/-- An after-action hook (receives the payload and the result). -/
abbrev AfterActionHook :=
  AgentContext → ToolInput → ActionResult → ERes AgentContext Unit

/-- An iteration-start / iteration-end hook. -/
abbrev IterHook := AgentContext → Nat → ERes AgentContext Unit

/-- A conditional-handler predicate. -/
abbrev CondPred := AgentContext → ToolInput → ERes AgentContext Bool

/-- A conditional-handler body. -/
abbrev CondHandler := AgentContext → ToolInput → ERes AgentContext Unit

/-- Mirrors the `HookRegistry` class of `hooks.ts`.  The single
`onToolCall` map of the source keys wildcard hooks under `"*"`; because
wildcard callbacks are invoked with an extra argument (the tool name)
they are stored here in their own typed list `onToolCallStar`. -/
structure HookRegistry where
  beforeScreenshot : List CtxHook := []
  afterScreenshot : List ImgHook := []
  beforeAction : List MutHook := []
  afterAction : List AfterActionHook := []
  onToolCall : List (String × List MutHook) := []
  onToolCallStar : List StarHook := []
  onIterationStart : List IterHook := []
  onIterationEnd : List IterHook := []

/-- Mirrors the `WorkflowEngine` class of `workflow.ts`: the custom-tool
registry (a custom tool receives only its arguments, not the context)
and the per-action-kind conditional handlers. -/
structure Workflow where
  customTools : List (String × (ToolInput → Except String String)) := []
  conditionalHandlers : List (String × List (CondPred × CondHandler)) := []

/-- Mirrors `WorkflowEngine.hasTool`. -/
def Workflow.hasTool (w : Workflow) (toolName : String) : Bool :=
  (List.lookup toolName w.customTools).isSome

/-- Mirrors `WorkflowEngine.executeTool`: throws `Tool '...' not found`
if absent, otherwise invokes the stored function on the arguments. -/
def Workflow.executeTool (w : Workflow) (toolName : String) (args : ToolInput) :
    Except String String :=
  match List.lookup toolName w.customTools with
  | none => .error ("Tool \x27" ++ toolName ++ "\x27 not found")
  | some f => f args

/-- Run a list of observer hooks in registration order; a throw aborts
the remaining hooks and propagates (mirrors `forEach` in the trigger
methods of `hooks.ts`). -/
def runCtxHooks (hs : List CtxHook) (ctx : AgentContext) : ERes AgentContext Unit :=
  match hs with
  | [] => .ok ctx ()
  | h :: rest =>
    match h ctx with
    | .ok ctx1 _ => runCtxHooks rest ctx1
    | .err ctx1 e => .err ctx1 e

/-- The mutation chain of `hooks.ts`: each callback sees the current
candidate; a non-`undefined` return value replaces the candidate for all
subsequent callbacks and for the final result. -/
def chainMutHooks (hs : List MutHook) (ctx : AgentContext) (action : ToolInput) :
    ERes AgentContext ToolInput :=
  match hs with
  | [] => .ok ctx action
  | h :: rest =>
    match h ctx action with
    | .ok ctx1 none => chainMutHooks rest ctx1 action
    | .ok ctx1 (some a1) => chainMutHooks rest ctx1 a1
    | .err ctx1 e => .err ctx1 e

/-- Mirrors `HookRegistry.triggerBeforeAction` (hooks.ts lines 56-65). -/
def HookRegistry.triggerBeforeAction (reg : HookRegistry) (ctx : AgentContext)
    (action : ToolInput) : ERes AgentContext ToolInput :=
  chainMutHooks reg.beforeAction ctx action

/-- Mirrors `HookRegistry.triggerOnToolCall`: name-specific hooks chain
first, then wildcard hooks chain over the already-mutated arguments. -/
def HookRegistry.triggerOnToolCall (reg : HookRegistry) (ctx : AgentContext)
    (toolName : String) (args : ToolInput) : ERes AgentContext ToolInput :=
  match (match List.lookup toolName reg.onToolCall with
         | some hs => chainMutHooks hs ctx args
         | none => .ok ctx args) with
  | .err ctx1 e => .err ctx1 e
  | .ok ctx1 args1 =>
    chainMutHooks (reg.onToolCallStar.map (fun h => fun c a => h c toolName a)) ctx1 args1

/-- The configuration of the `ActionExecutor` (actions.ts); the
timing-only fields `safetyDelay` and `rateLimitDelay` are omitted. -/
structure ExecutorConfig where
  allowedRegion : Option ScreenRegion := none
  confirmationMode : String := "auto"

/-- The environment of one agent: its registrations plus the oracles for
the three external collaborators.  `robotFail k` says whether the k-th
robot primitive invocation throws; `screenCapture k` is the outcome of
the k-th screen capture; `reasoning k msgs` is the outcome of the k-th
reasoning-service call on the current message list. -/
structure Env where
  hooks : HookRegistry := {}
  workflow : Workflow := {}
  execCfg : ExecutorConfig := {}
  robotFail : Nat → Option String := fun _ => none
  screenCapture : Nat → Except String String := fun _ => .ok ""
  reasoning : Nat → List Message → Except String ReasoningResponse :=
    fun _ _ => .ok { stopReason := "end_turn", content := [] }

/-- Mirrors `ActionExecutor.checkAllowed` (actions.ts lines 27-38): no
configured region permits everything; otherwise all four bounds are
inclusive.  A missing coordinate (JS `undefined`) makes every `<=`
comparison false, as in JS. -/
def checkAllowed (cfg : ExecutorConfig) (x? y? : Option Int) : Bool :=
  match cfg.allowedRegion with
  | none => true
  | some r =>
    match x?, y? with
    | some x, some y =>
      decide (r.x ≤ x) && decide (x ≤ r.x + r.width) &&
      decide (r.y ≤ y) && decide (y ≤ r.y + r.height)
    | _, _ => false

/-- Renders an optional JS number the way a template literal would. -/
def showOptInt : Option Int → String
  | some v => toString v
  | none => "undefined"

/-- The error message `Coordinates (x, y) outside allowed region`. -/
def outOfRegionMsg (x? y? : Option Int) : String :=
  "Coordinates (" ++ showOptInt x? ++ ", " ++ showOptInt y? ++ ") outside allowed region"

/-- One robot primitive invocation (`robot.moveMouse`, `robot.mouseClick`,
`robot.typeString`, `robot.keyTap`, `robot.scrollMouse`): bumps the call
counter and throws when the oracle says so. -/
def robotOp (env : Env) (s : St) : St × Except String Unit :=
  let s1 : St := { s with robotCalls := s.robotCalls + 1 }
  match env.robotFail s.robotCalls with
  | some e => (s1, .error e)
  | none => (s1, .ok ())

/-- Mirrors `ActionExecutor.executeWithSafety` (actions.ts lines 48-77):
dry-run short-circuits to a successful dry-run-marked result without
running the action closure; otherwise the closure's outcome or thrown
error is wrapped as an `ActionResult`. -/
def executeWithSafety (cfg : ExecutorConfig)
    (actionFunc : St → St × Except String ActionData) (t : ActionType) (s : St) :
    St × ActionResult :=
  if cfg.confirmationMode = "dry-run" then
    (s, { success := true, actionType := t, data := some .dryRun })
  else
    match actionFunc s with
    | (s1, .ok d) => (s1, { success := true, actionType := t, data := some d })
    | (s1, .error e) => (s1, { success := false, actionType := t, error := some e })

/-- The action closure of `ActionExecutor.mouseMove`. -/
def mouseMoveFunc (env : Env) (x? y? : Option Int) (s : St) :
    St × Except String ActionData :=
  match robotOp env s with
  | (s1, .error e) => (s1, .error e)
  | (s1, .ok _) => (s1, .ok (.moveData x? y?))

/-- Mirrors `ActionExecutor.mouseMove` (region check, then execution). -/
def ActionExecutor.mouseMove (env : Env) (x? y? : Option Int) (s : St) :
    St × ActionResult :=
  if checkAllowed env.execCfg x? y? then
    executeWithSafety env.execCfg (mouseMoveFunc env x? y?) .mouseMove s
  else
    (s, { success := false, actionType := .mouseMove,
          error := some (outOfRegionMsg x? y?) })

/-- The `clicks` repetitions of `robot.mouseClick`. -/
def clicksLoop (env : Env) (n : Nat) (s : St) : St × Except String Unit :=
  match n with
  | 0 => (s, .ok ())
  | n1 + 1 =>
    match robotOp env s with
    | (s1, .error e) => (s1, .error e)
    | (s1, .ok _) => clicksLoop env n1 s1

/-- The action closure of `ActionExecutor.click`: `robot.moveMouse`, then
`clicks` times `robot.mouseClick`. -/
def clickFunc (env : Env) (x? y? : Option Int) (button : MouseButton)
    (clicks : Nat) (s : St) : St × Except String ActionData :=
  match robotOp env s with
  | (s1, .error e) => (s1, .error e)
  | (s1, .ok _) =>
    match clicksLoop env clicks s1 with
    | (s2, .error e) => (s2, .error e)
    | (s2, .ok _) => (s2, .ok (.clickData x? y? button clicks))

/-- Mirrors `ActionExecutor.click` (actions.ts lines 94-115). -/
def ActionExecutor.click (env : Env) (x? y? : Option Int) (button : MouseButton)
    (clicks : Nat) (s : St) : St × ActionResult :=
  if checkAllowed env.execCfg x? y? then
    executeWithSafety env.execCfg (clickFunc env x? y? button clicks) .click s
  else
    (s, { success := false, actionType := .click,
          error := some (outOfRegionMsg x? y?) })

/-- Mirrors `ActionExecutor.doubleClick`. -/
def ActionExecutor.doubleClick (env : Env) (x? y? : Option Int) (s : St) :
    St × ActionResult :=
  ActionExecutor.click env x? y? .left 2 s

/-- The action closure of `ActionExecutor.typeText`. -/
def typeTextFunc (env : Env) (text? : Option String) (s : St) :
    St × Except String ActionData :=
  match robotOp env s with
  | (s1, .error e) => (s1, .error e)
  | (s1, .ok _) => (s1, .ok (.typeData text? (text?.getD "").length))

/-- Mirrors `ActionExecutor.typeText` (no region check). -/
def ActionExecutor.typeText (env : Env) (text? : Option String) (s : St) :
    St × ActionResult :=
  executeWithSafety env.execCfg (typeTextFunc env text?) .typeAction s

/-- The action closure of `ActionExecutor.pressKey`. -/
def pressKeyFunc (env : Env) (key? : Option String) (s : St) :
    St × Except String ActionData :=
  match robotOp env s with
  | (s1, .error e) => (s1, .error e)
  | (s1, .ok _) => (s1, .ok (.keyData key?))

/-- Mirrors `ActionExecutor.pressKey` (no region check). -/
def ActionExecutor.pressKey (env : Env) (key? : Option String) (s : St) :
    St × ActionResult :=
  executeWithSafety env.execCfg (pressKeyFunc env key?) .key s

/-- The action closure of `ActionExecutor.scroll`: an optional
`robot.moveMouse` when both coordinates are present, then
`robot.scrollMouse`. -/
def scrollFunc (env : Env) (direction? : Option ScrollDirection) (amount : Int)
    (x? y? : Option Int) (s : St) : St × Except String ActionData :=
  match (if x?.isSome && y?.isSome then robotOp env s else (s, .ok ())) with
  | (s1, .error e) => (s1, .error e)
  | (s1, .ok _) =>
    match robotOp env s1 with
    | (s2, .error e) => (s2, .error e)
    | (s2, .ok _) => (s2, .ok (.scrollData direction? amount))

/-- Mirrors `ActionExecutor.scroll` (actions.ts lines 135-161): the
region check applies only when both coordinates are present. -/
def ActionExecutor.scroll (env : Env) (direction? : Option ScrollDirection)
    (amount : Int) (x? y? : Option Int) (s : St) : St × ActionResult :=
  if x?.isSome && y?.isSome && !(checkAllowed env.execCfg x? y?) then
    (s, { success := false, actionType := .scroll,
          error := some (outOfRegionMsg x? y?) })
  else
    executeWithSafety env.execCfg (scrollFunc env direction? amount x? y?) .scroll s

/-- Mirrors `WorkflowEngine.checkConditionalHandlers` inner loop: each
(predicate, handler) pair is evaluated in registration order inside its
own try/catch, so a throw is logged and the loop continues. -/
def runCondPairs (pairs : List (CondPred × CondHandler)) (kind : String)
    (idx : Nat) (action : ToolInput) (s : St) : St :=
  match pairs with
  | [] => s
  | (p, h) :: rest =>
    let s0 : St := { s with trace := s.trace ++ [.condPairEval kind idx] }
    let c1 : AgentContext :=
      match p s0.ctx action with
      | .err c _ => c
      | .ok c b => if b then (h c action).stateOf else c
    runCondPairs rest kind (idx + 1) action { s0 with ctx := c1 }

/-- Mirrors `WorkflowEngine.checkConditionalHandlers` (workflow.ts lines
45-58).  The `condCheck` event marks the call; the return type has no
error branch because every callback throw is caught inside. -/
def checkConditionalHandlers (env : Env) (kind : String) (action : ToolInput)
    (s : St) : St :=
  let s0 : St := { s with trace := s.trace ++ [.condCheck kind] }
  match List.lookup kind env.workflow.conditionalHandlers with
  | none => s0
  | some pairs => runCondPairs pairs kind 0 action s0

/-- Mirrors `ComputerUseAgent.takeScreenshot`: before-screenshot hooks,
capture, store on the context, after-screenshot hooks. -/
def ComputerUseAgent.takeScreenshot (env : Env) (s : St) : ERes St String :=
  match runCtxHooks env.hooks.beforeScreenshot s.ctx with
  | .err c e => .err { s with ctx := c } e
  | .ok c _ =>
    let k := s.screenshotCalls
    let s1 : St :=
      { s with ctx := c, screenshotCalls := k + 1, trace := s.trace ++ [.screenshotTaken] }
    match env.screenCapture k with
    | .error e => .err s1 e
    | .ok img =>
      let s2 : St := { s1 with ctx := { s1.ctx with lastScreenshot := some img } }
      match runCtxHooks (env.hooks.afterScreenshot.map (fun h => fun c2 => h c2 img)) s2.ctx with
      | .err c2 e => .err { s2 with ctx := c2 } e
      | .ok c2 _ => .ok { s2 with ctx := c2 } img

/-- The common shape of the five executor-backed branches of
`ComputerUseAgent.executeTool`: before-action chain, executor call,
after-action hooks on the pre-chain input, conditional handlers on the
pre-chain input. -/
def runBuiltin (env : Env) (kind : String) (modifiedInput : ToolInput)
    (execFn : ToolInput → St → St × ActionResult) (s : St) : ERes St ActionResult :=
  let sB : St := { s with trace := s.trace ++ [.beforeActionFired] }
  match env.hooks.triggerBeforeAction sB.ctx modifiedInput with
  | .err c e => .err { sB with ctx := c } e
  | .ok c action =>
    let s1 : St := { sB with ctx := c }
    let p := execFn action s1
    let sA : St := { p.1 with trace := p.1.trace ++ [.afterActionFired] }
    match runCtxHooks (env.hooks.afterAction.map (fun h => fun c2 => h c2 modifiedInput p.2)) sA.ctx with
    | .err c2 e => .err { sA with ctx := c2 } e
    | .ok c2 _ =>
      .ok (checkConditionalHandlers env kind modifiedInput { sA with ctx := c2 }) p.2

/-- Mirrors `ComputerUseAgent.executeTool` (agent.ts lines 117-205):
on-tool-call chain, then the custom-tool registry, then the built-in
switch, with unknown names falling through to a failed result.  Note the
source hard-codes `ActionType.SCREENSHOT` on the custom and unknown
paths. -/
def ComputerUseAgent.executeTool (env : Env) (toolName : String)
    (toolInput : ToolInput) (s : St) : ERes St ActionResult :=
  let s0 : St := { s with trace := s.trace ++ [.onToolCallFired] }
  match env.hooks.triggerOnToolCall s0.ctx toolName toolInput with
  | .err c e => .err { s0 with ctx := c } e
  | .ok c modifiedInput =>
    let s1 : St := { s0 with ctx := c }
    if env.workflow.hasTool toolName then
      let s2 : St := { s1 with trace := s1.trace ++ [.customToolExec toolName] }
      match env.workflow.executeTool toolName modifiedInput with
      | .ok v =>
        .ok s2 { success := true, actionType := .screenshot,
                 data := some (.customResult v) }
      | .error e =>
        .ok s2 { success := false, actionType := .screenshot, error := some e }
    else if toolName = "screenshot" then
      match ComputerUseAgent.takeScreenshot env s1 with
      | .err s2 e => .err s2 e
      | .ok s2 img =>
        .ok s2 { success := true, actionType := .screenshot,
                 data := some (.image img) }
    else if toolName = "mouse_move" then
      runBuiltin env "mouse_move" modifiedInput
        (fun a s2 => ActionExecutor.mouseMove env a.x a.y s2) s1
    else if toolName = "click" then
      runBuiltin env "click" modifiedInput
        (fun a s2 => ActionExecutor.click env a.x a.y (a.button.getD .left)
          (a.clicks.getD 1) s2) s1
    else if toolName = "type" then
      runBuiltin env "type" modifiedInput
        (fun a s2 => ActionExecutor.typeText env a.text s2) s1
    else if toolName = "key" then
      runBuiltin env "key" modifiedInput
        (fun a s2 => ActionExecutor.pressKey env a.key s2) s1
    else if toolName = "scroll" then
      runBuiltin env "scroll" modifiedInput
        (fun a s2 => ActionExecutor.scroll env a.direction (a.amount.getD 3) a.x a.y s2) s1
    else
      .ok s1 { success := false, actionType := .screenshot,
               error := some ("Unknown tool: " ++ toolName) }

/-- Extracts (id, name, input) from a `tool_use` block. -/
def toolUseOf : ContentBlock → Option (String × String × ToolInput)
  | .toolUse id name input => some (id, name, input)
  | _ => none

/-- A loose model of `JSON.stringify` applied to `result.data`; only the
fact that a textual summary is produced matters to the loop. -/
def serializeData : Option ActionData → String
  | none => "undefined"
  | some .dryRun => "\x7b\"dryRun\":true\x7d"
  | some (.moveData x y) =>
      "\x7b\"x\":" ++ showOptInt x ++ ",\"y\":" ++ showOptInt y ++ "\x7d"
  | some (.clickData x y _ clicks) =>
      "\x7b\"x\":" ++ showOptInt x ++ ",\"y\":" ++ showOptInt y ++
      ",\"clicks\":" ++ toString clicks ++ "\x7d"
  | some (.typeData t len) =>
      "\x7b\"text\":" ++ (t.getD "undefined") ++ ",\"length\":" ++ toString len ++ "\x7d"
  | some (.keyData k) => "\x7b\"key\":" ++ (k.getD "undefined") ++ "\x7d"
  | some (.scrollData _ amount) => "\x7b\"amount\":" ++ toString amount ++ "\x7d"
  | some (.image b64) => "\x7b\"image\":" ++ b64 ++ "\x7d"
  | some (.customResult v) => "\x7b\"result\":" ++ v ++ "\x7d"

/-- The `image` field of a `data` record, `undefined` when absent. -/
def imageFieldOf : Option ActionData → String
  | some (.image b64) => b64
  | _ => "undefined"

/-- The tool-result content the loop builds for one dispatched block
(agent.ts lines 272-295): an image block for a successful screenshot
with data, otherwise a textual success/error summary. -/
def toolResultContentFor (name : String) (r : ActionResult) : List ContentBlock :=
  if r.success then
    if name = "screenshot" && r.data.isSome then
      [ .image (imageFieldOf r.data) ]
    else
      [ .text ("Success: " ++ serializeData r.data) ]
  else
    [ .text ("Error: " ++ (r.error.getD "undefined")) ]

/-- The tool-result blocks matching a list of tool-use triples with the
list of their dispatched results, in order: the i-th block carries the
i-th id and reports the i-th result. -/
def pairedToolResults (tus : List (String × String × ToolInput))
    (rs : List ActionResult) : List ContentBlock :=
  List.zipWith (fun u r => ContentBlock.toolResult u.1 (toolResultContentFor u.2.1 r)) tus rs

/-- The for-loop over the assistant reply's content blocks (agent.ts
lines 267-303): dispatch each `tool_use` block in order, append its
`ActionResult` to the action history, and collect a `tool_result` block
keyed by the block's id. -/
def processToolUseBlocks (env : Env) (blocks : List ContentBlock) (s : St) :
    ERes St (List ContentBlock) :=
  match blocks with
  | [] => .ok s []
  | ContentBlock.toolUse id name input :: rest =>
    match ComputerUseAgent.executeTool env name input s with
    | .err s1 e => .err s1 e
    | .ok s1 result =>
      let s2 : St :=
        { s1 with ctx := { s1.ctx with actionHistory := s1.ctx.actionHistory ++ [result] } }
      match processToolUseBlocks env rest s2 with
      | .err s3 e => .err s3 e
      | .ok s3 trs => .ok s3 (ContentBlock.toolResult id (toolResultContentFor name result) :: trs)
  | _ :: rest => processToolUseBlocks env rest s

/-- Fires the iteration-start hooks (st-level wrapper). -/
def stIterStart (env : Env) (i : Nat) (s : St) : ERes St Unit :=
  let s0 : St := { s with trace := s.trace ++ [.iterStartFired i] }
  match runCtxHooks (env.hooks.onIterationStart.map (fun h => fun c => h c i)) s0.ctx with
  | .err c e => .err { s0 with ctx := c } e
  | .ok c _ => .ok { s0 with ctx := c } ()

/-- Fires the iteration-end hooks (st-level wrapper). -/
def stIterEnd (env : Env) (i : Nat) (s : St) : ERes St Unit :=
  let s0 : St := { s with trace := s.trace ++ [.iterEndFired i] }
  match runCtxHooks (env.hooks.onIterationEnd.map (fun h => fun c => h c i)) s0.ctx with
  | .err c e => .err { s0 with ctx := c } e
  | .ok c _ => .ok { s0 with ctx := c } ()

/-- The body of the try block of one loop pass (agent.ts lines 245-311):
reasoning-service call, append the assistant reply, branch on the stop
signal, and fire the iteration-end hooks.  An `err` value models an
exception reaching the catch clause. -/
def runTurnBody (env : Env) (iteration : Nat) (s : St) : ERes St TurnSignal :=
  let k := s.reasoningCalls
  let s0 : St := { s with reasoningCalls := k + 1, trace := s.trace ++ [.reasoningCall k] }
  match env.reasoning k s.messages with
  | .error e => .err s0 e
  | .ok resp =>
    let s1 : St :=
      { s0 with messages := s0.messages ++ [{ role := "assistant", content := resp.content }] }
    if resp.stopReason = "end_turn" then
      match stIterEnd env iteration s1 with
      | .err s2 e => .err s2 e
      | .ok s2 _ => .ok s2 .breakLoop
    else if resp.stopReason = "tool_use" then
      match processToolUseBlocks env resp.content s1 with
      | .err s2 e => .err s2 e
      | .ok s2 toolResults =>
        let s3 : St :=
          { s2 with messages := s2.messages ++ [{ role := "user", content := toolResults }] }
        match stIterEnd env iteration s3 with
        | .err s4 e => .err s4 e
        | .ok s4 _ => .ok s4 .continueLoop
    else
      match stIterEnd env iteration s1 with
      | .err s2 e => .err s2 e
      | .ok s2 _ => .ok s2 .continueLoop

/-- The for-loop of `ComputerUseAgent.run` (agent.ts lines 241-320): the
iteration-start hooks run outside the try block, so their exceptions
propagate (`err`), while any exception from the body is converted by the
catch clause into the failure record.  On `break` or exhaustion the
success record is built from the context. -/
def runLoop (env : Env) (remaining iteration : Nat) (s : St) : ERes St RunResult :=
  match remaining with
  | 0 => .ok s (.success (s.ctx.iteration + 1) s.ctx.state s.ctx.actionHistory)
  | r + 1 =>
    let s0 : St := { s with ctx := { s.ctx with iteration := iteration } }
    match stIterStart env iteration s0 with
    | .err s1 e => .err s1 e
    | .ok s1 _ =>
      match runTurnBody env iteration s1 with
      | .err s2 e => .ok s2 (.failure e iteration s2.ctx.state)
      | .ok s2 .breakLoop =>
        .ok s2 (.success (s2.ctx.iteration + 1) s2.ctx.state s2.ctx.actionHistory)
      | .ok s2 .continueLoop => runLoop env r (iteration + 1) s2

/-- Mirrors `ComputerUseAgent.run` (agent.ts lines 207-328): fresh
context and message list, initial screenshot (outside any try/catch, so
its exceptions propagate), seed the first user turn, then the loop.  The
system-prompt argument is omitted: the reasoning oracle abstracts it. -/
def ComputerUseAgent.run (env : Env) (goal : String) (maxIterations : Nat) (s : St) :
    ERes St RunResult :=
  let s0 : St := { s with ctx := {}, messages := [] }
  match ComputerUseAgent.takeScreenshot env s0 with
  | .err s1 e => .err s1 e
  | .ok s1 img =>
    let s2 : St :=
      { s1 with messages := s1.messages ++
          [{ role := "user", content := [ContentBlock.image img, ContentBlock.text goal] }] }
    runLoop env maxIterations 0 s2

/-- The six tool names handled by the built-in switch of
`ComputerUseAgent.executeTool`. -/
def builtinToolNames : List String :=
  ["screenshot", "mouse_move", "click", "type", "key", "scroll"]

/-- The wrapping of a custom tool's outcome performed by the custom path
of `ComputerUseAgent.executeTool` (agent.ts lines 121-136). -/
def customWrap : Except String String → ActionResult
  | .ok v => { success := true, actionType := .screenshot, data := some (.customResult v) }
  | .error e => { success := false, actionType := .screenshot, error := some e }

/-- The `ActionType` each branch of the built-in switch stamps on its
result. -/
def builtinActionType : String → ActionType
  | "screenshot" => .screenshot
  | "mouse_move" => .mouseMove
  | "click" => .click
  | "type" => .typeAction
  | "key" => .key
  | "scroll" => .scroll
  | _ => .screenshot

/-- The region gate the built-in dispatch applies to the final payload of
each executor-backed action: `mouse_move` and `click` check their
coordinates, `scroll` only when both coordinates are present, `type` and
`key` carry no coordinates. -/
def builtinRegionOk (cfg : ExecutorConfig) (name : String) (input : ToolInput) : Bool :=
  if name = "mouse_move" || name = "click" then checkAllowed cfg input.x input.y
  else if name = "scroll" then
    !(input.x.isSome && input.y.isSome && !(checkAllowed cfg input.x input.y))
  else true

/-- The inclusive-bounds membership the spec states for the allowed
region. -/
def regionContains (r : ScreenRegion) (x y : Int) : Prop :=
  r.x ≤ x ∧ x ≤ r.x + r.width ∧ r.y ≤ y ∧ y ≤ r.y + r.height

instance (r : ScreenRegion) (x y : Int) : Decidable (regionContains r x y) := by
  unfold regionContains
  infer_instance

/-- Hypothesis under which the loop-level bookkeeping claims are stated:
every registered callback leaves `actionHistory` untouched (the spec's
contract that callbacks may mutate the state map but not replace the
history).  Custom tools never receive the context at all. -/
def PreservesHistory (env : Env) : Prop :=
  (∀ h ∈ env.hooks.beforeScreenshot, ∀ c, ((h c).stateOf).actionHistory = c.actionHistory) ∧
  (∀ h ∈ env.hooks.afterScreenshot, ∀ c img, ((h c img).stateOf).actionHistory = c.actionHistory) ∧
  (∀ h ∈ env.hooks.beforeAction, ∀ c a, ((h c a).stateOf).actionHistory = c.actionHistory) ∧
  (∀ h ∈ env.hooks.afterAction, ∀ c a r, ((h c a r).stateOf).actionHistory = c.actionHistory) ∧
  (∀ n hs, List.lookup n env.hooks.onToolCall = some hs →
    ∀ f ∈ hs, ∀ c a, ((f c a).stateOf).actionHistory = c.actionHistory) ∧
  (∀ f ∈ env.hooks.onToolCallStar, ∀ c n a, ((f c n a).stateOf).actionHistory = c.actionHistory) ∧
  (∀ f ∈ env.hooks.onIterationStart, ∀ c i, ((f c i).stateOf).actionHistory = c.actionHistory) ∧
  (∀ f ∈ env.hooks.onIterationEnd, ∀ c i, ((f c i).stateOf).actionHistory = c.actionHistory) ∧
  (∀ kind pairs, List.lookup kind env.workflow.conditionalHandlers = some pairs →
    ∀ q ∈ pairs,
      (∀ c a, ((q.1 c a).stateOf).actionHistory = c.actionHistory) ∧
      (∀ c a, ((q.2 c a).stateOf).actionHistory = c.actionHistory))

/-- Executor-level frame: `s'` differs from `s` at most in the robot
call counter (the executor touches neither the context, the
conversation, nor the other instrumentation). -/
def OnlyRobot (s s' : St) : Prop :=
  s'.ctx = s.ctx ∧ s'.messages = s.messages ∧ s'.screenshotCalls = s.screenshotCalls ∧
  s'.reasoningCalls = s.reasoningCalls ∧ s'.trace = s.trace

/-- Region-restricted environment used to check boundary inclusivity on
the spec's example region. -/
def regionEnv : Env :=
  { execCfg := { allowedRegion := some ⟨100, 100, 800, 600⟩, confirmationMode := "auto" } }

/-- Conditional-handler pairs for the isolation check: the first
handler throws, a second one is registered after it. -/
def condPairsEx : List (CondPred × CondHandler) :=
  [ (fun c _ => .ok c true, fun c _ => .err c "handler boom"),
    (fun c _ => .ok c true, fun c _ => .ok c ()) ]

/-- Environment with the two conditional handlers above under "click". -/
def condEnv : Env :=
  { workflow := { conditionalHandlers := [("click", condPairsEx)] } }

/-- Dry-run environment (no hooks, no region, capture succeeds). -/
def dryEnv : Env :=
  { execCfg := { confirmationMode := "dry-run" },
    screenCapture := fun _ => .ok "IMG" }

/-- Environment whose screen capture always throws. -/
def boomEnv : Env :=
  { screenCapture := fun _ => .error "boom" }

/-- Plain environment: capture succeeds, reasoning replies `end_turn`. -/
def plainEnv : Env := {}

/-- Environment whose reasoning service always answers with a
`tool_use` stop signal and no content blocks. -/
def loopEnv : Env :=
  { screenCapture := fun _ => .ok "I",
    reasoning := fun _ _ => .ok { stopReason := "tool_use", content := [] } }

/-- Assistant reply with two `tool_use` blocks (ids "a" then "b"). -/
def twoToolResp : ReasoningResponse :=
  { stopReason := "tool_use",
    content :=
      [ ContentBlock.toolUse "a" "click" { x := some 5, y := some 6 },
        ContentBlock.toolUse "b" "click" { x := some 7, y := some 8 } ] }

/-- Environment whose reasoning service always returns `twoToolResp`. -/
def turnEnv : Env :=
  { screenCapture := fun _ => .ok "I",
    reasoning := fun _ _ => .ok twoToolResp }

/-- Environment with a custom tool registered under the built-in name
"click". -/
def customClickEnv : Env :=
  { workflow := { customTools := [("click", fun _ => .ok "custom ran")] } }

/-! ## Helper lemmas -/

theorem chainMutHooks_append (hs1 hs2 : List MutHook) (ctx : AgentContext) (p : ToolInput) :
    chainMutHooks (hs1 ++ hs2) ctx p =
      (match chainMutHooks hs1 ctx p with
       | .ok c a => chainMutHooks hs2 c a
       | .err c e => .err c e) := by
  induction hs1 generalizing ctx p with
  | nil => simp [chainMutHooks]
  | cons h rest ih =>
    simp only [List.cons_append, chainMutHooks]
    cases h ctx p with
    | ok c r =>
      cases r with
      | none => simpa using ih c p
      | some a => simpa using ih c a
    | err c e => rfl

theorem chainMutHooks_transparent (hs : List MutHook) (ctx : AgentContext) (p : ToolInput)
    (h : ∀ f ∈ hs, ∀ c a, f c a = .ok c none) :
    chainMutHooks hs ctx p = .ok ctx p := by
  induction hs generalizing ctx with
  | nil => rfl
  | cons f rest ih =>
    have hf := h f (List.mem_cons_self f rest) ctx p
    simp only [chainMutHooks, hf]
    exact ih ctx fun g hg => h g (List.mem_cons_of_mem f hg)

/-- Claim C6: the before-action trigger folds the callbacks in
registration order — a prefix runs first and its result (context and
candidate payload) feeds the suffix; the concrete chain h1 returning A,
h2 returning undefined, h3 returning B dispatches B; and a chain in
which every callback returns undefined dispatches the original payload
unchanged. -/
theorem c6_before_action_chaining :
    (∀ (hs1 hs2 : List MutHook) (ctx : AgentContext) (p : ToolInput),
      chainMutHooks (hs1 ++ hs2) ctx p =
        (match chainMutHooks hs1 ctx p with
         | .ok c a => chainMutHooks hs2 c a
         | .err c e => .err c e))
    ∧ (∀ (ctx : AgentContext) (p A B : ToolInput),
      HookRegistry.triggerBeforeAction
        { beforeAction :=
            [fun c _ => .ok c (some A), fun c _ => .ok c none, fun c _ => .ok c (some B)] }
        ctx p = .ok ctx B)
    ∧ (∀ (hs : List MutHook) (ctx : AgentContext) (p : ToolInput),
      (∀ f ∈ hs, ∀ c a, f c a = .ok c none) →
      chainMutHooks hs ctx p = .ok ctx p) := by
  refine ⟨chainMutHooks_append, ?_, chainMutHooks_transparent⟩
  intro ctx p A B
  rfl

/-- Witness for C6 at concrete inputs: the three-hook chain dispatches
the replacement `B`, and a singleton transparent chain keeps the
original payload. -/
theorem c6_before_action_chaining_witness :
    HookRegistry.triggerBeforeAction
      { beforeAction :=
          [fun c _ => .ok c (some { x := some 1 }), fun c _ => .ok c none,
           fun c _ => .ok c (some { x := some 2 })] }
      {} {} = .ok {} { x := some 2 }
    ∧ chainMutHooks [fun c _ => .ok c none] {} {} = .ok {} {} := by
  constructor
  · exact c6_before_action_chaining.2.1 {} {} { x := some 1 } { x := some 2 }
  · refine c6_before_action_chaining.2.2 [fun c _ => .ok c none] {} {} ?_
    intro f hf c a
    rw [List.mem_singleton] at hf
    subst hf
    rfl

theorem runCondPairs_trace (pairs : List (CondPred × CondHandler)) (kind : String)
    (idx : Nat) (action : ToolInput) (s : St) :
    (runCondPairs pairs kind idx action s).trace =
      s.trace ++ (List.range pairs.length).map (fun i => Event.condPairEval kind (idx + i)) := by
  induction pairs generalizing idx s with
  | nil => simp [runCondPairs]
  | cons q rest ih =>
    obtain ⟨p, h⟩ := q
    simp only [runCondPairs, ih, List.length_cons, List.range_succ_eq_map, List.map_cons,
      List.map_map]
    have hfun : ((fun i => Event.condPairEval kind (idx + i)) ∘ Nat.succ)
        = fun i => Event.condPairEval kind (idx + 1 + i) := by
      funext i
      simp only [Function.comp_apply]
      congr 1
      omega
    rw [hfun]
    simp

/-- Claim C8: `checkConditionalHandlers` evaluates every registered
(predicate, handler) pair of the action kind, in registration order,
for any behaviour of the predicates and handlers — including throwing
ones, whose exception is caught inside the per-pair try/catch; the
result type of `checkConditionalHandlers` has no exception branch, so
nothing propagates to the caller.  The trace records one `condPairEval`
event per registered pair, with indices in registration order. -/
theorem c8_conditional_handler_isolation (env : Env) (kind : String)
    (pairs : List (CondPred × CondHandler)) (action : ToolInput) (s : St)
    (hreg : List.lookup kind env.workflow.conditionalHandlers = some pairs) :
    (checkConditionalHandlers env kind action s).trace =
      s.trace ++ Event.condCheck kind ::
        (List.range pairs.length).map (fun i => Event.condPairEval kind i) := by
  simp only [checkConditionalHandlers, hreg, runCondPairs_trace, Nat.zero_add]
  simp

/-- Witness for C8: with a first handler that throws and a second
registered after it, both pairs are still evaluated, in order. -/
theorem c8_conditional_handler_isolation_witness :
    (checkConditionalHandlers condEnv "click" {} {}).trace =
      [Event.condCheck "click", Event.condPairEval "click" 0, Event.condPairEval "click" 1] :=
  c8_conditional_handler_isolation condEnv "click" condPairsEx {} {} rfl

/-- Claim C4: with a configured allowed region, the region gate is
inclusive on all four bounds; an in-bounds coordinate-bearing action
(click, mouse_move, scroll-with-coordinates) proceeds to
`executeWithSafety` (the execution path), while an out-of-bounds one
returns a failed `ActionResult` naming the coordinates with the machine
state unchanged — in particular the physical executor (robot) is never
invoked for it. -/
theorem c4_region_check (env : Env) (r : ScreenRegion) (x y : Int)
    (button : MouseButton) (clicks : Nat) (dir : Option ScrollDirection) (amt : Int)
    (s : St) (henv : env.execCfg.allowedRegion = some r) :
    (checkAllowed env.execCfg (some x) (some y) = true ↔ regionContains r x y)
    ∧ (regionContains r x y →
        ActionExecutor.click env (some x) (some y) button clicks s
          = executeWithSafety env.execCfg (clickFunc env (some x) (some y) button clicks) .click s
        ∧ ActionExecutor.mouseMove env (some x) (some y) s
          = executeWithSafety env.execCfg (mouseMoveFunc env (some x) (some y)) .mouseMove s
        ∧ ActionExecutor.scroll env dir amt (some x) (some y) s
          = executeWithSafety env.execCfg (scrollFunc env dir amt (some x) (some y)) .scroll s)
    ∧ (¬ regionContains r x y →
        ActionExecutor.click env (some x) (some y) button clicks s
          = (s, { success := false, actionType := .click,
                  error := some (outOfRegionMsg (some x) (some y)) })
        ∧ ActionExecutor.mouseMove env (some x) (some y) s
          = (s, { success := false, actionType := .mouseMove,
                  error := some (outOfRegionMsg (some x) (some y)) })
        ∧ ActionExecutor.scroll env dir amt (some x) (some y) s
          = (s, { success := false, actionType := .scroll,
                  error := some (outOfRegionMsg (some x) (some y)) })) := by
  have hiff : checkAllowed env.execCfg (some x) (some y) = true ↔ regionContains r x y := by
    simp [checkAllowed, henv, regionContains, and_assoc]
  refine ⟨hiff, ?_, ?_⟩
  · intro hin
    have hct := hiff.mpr hin
    refine ⟨?_, ?_, ?_⟩
    · simp [ActionExecutor.click, hct]
    · simp [ActionExecutor.mouseMove, hct]
    · simp [ActionExecutor.scroll, hct]
  · intro hout
    have hcf : checkAllowed env.execCfg (some x) (some y) = false := by
      have hne := mt hiff.mp hout
      simpa using hne
    refine ⟨?_, ?_, ?_⟩
    · simp [ActionExecutor.click, hcf]
    · simp [ActionExecutor.mouseMove, hcf]
    · simp [ActionExecutor.scroll, hcf]

/-- Witness for C4 on the spec's example region {x:100, y:100,
width:800, height:600}: a click at (900, 700) is permitted (boundary
inclusive) and a click at (50, 50) yields the out-of-region failure
with the state untouched. -/
theorem c4_region_check_witness :
    ActionExecutor.click regionEnv (some 900) (some 700) .left 1 {}
      = executeWithSafety regionEnv.execCfg
          (clickFunc regionEnv (some 900) (some 700) .left 1) .click {}
    ∧ ActionExecutor.click regionEnv (some 50) (some 50) .left 1 {}
      = ({}, { success := false, actionType := .click,
               error := some (outOfRegionMsg (some 50) (some 50)) }) :=
  ⟨((c4_region_check regionEnv ⟨100, 100, 800, 600⟩ 900 700 .left 1 none 0 {} rfl).2.1
      (by decide)).1,
   ((c4_region_check regionEnv ⟨100, 100, 800, 600⟩ 50 50 .left 1 none 0 {} rfl).2.2
      (by decide)).1⟩

/-- Claim C7: dispatching a tool name that is neither one of the six
built-in names nor a registered custom tool yields a failed
`ActionResult` whose error names the unknown tool; the trace gains only
the `onToolCallFired` event (the on-tool-call chain does run in the
source before the name is examined), so no before-action hook,
after-action hook or conditional handler is invoked, and neither the
robot nor the screen capture is touched.  If the on-tool-call chain
itself throws, the dispatch produces no result and still reaches none
of those components. -/
theorem c7_unknown_tool (env : Env) (toolName : String) (input : ToolInput) (s : St)
    (hcustom : env.workflow.hasTool toolName = false)
    (hbuiltin : toolName ∉ builtinToolNames) :
    (∀ s' rr, ComputerUseAgent.executeTool env toolName input s = .ok s' rr →
      rr = { success := false, actionType := .screenshot,
             error := some ("Unknown tool: " ++ toolName) }
      ∧ s'.trace = s.trace ++ [Event.onToolCallFired]
      ∧ s'.robotCalls = s.robotCalls ∧ s'.screenshotCalls = s.screenshotCalls)
    ∧ (∀ s' e, ComputerUseAgent.executeTool env toolName input s = .err s' e →
      s'.trace = s.trace ++ [Event.onToolCallFired]
      ∧ s'.robotCalls = s.robotCalls ∧ s'.screenshotCalls = s.screenshotCalls) := by
  simp only [builtinToolNames, List.mem_cons, List.not_mem_nil, or_false, not_or] at hbuiltin
  obtain ⟨h1, h2, h3, h4, h5, h6⟩ := hbuiltin
  constructor
  · intro s' rr heq
    simp only [ComputerUseAgent.executeTool, hcustom, h1, h2, h3, h4, h5, h6,
      Bool.false_eq_true, if_false, ite_false] at heq
    cases hres : env.hooks.triggerOnToolCall s.ctx toolName input with
    | ok c mi =>
      rw [hres] at heq
      injection heq with hs hr
      subst hs
      subst hr
      simp
    | err c e =>
      rw [hres] at heq
      injection heq
  · intro s' e heq
    simp only [ComputerUseAgent.executeTool, hcustom, h1, h2, h3, h4, h5, h6,
      Bool.false_eq_true, if_false, ite_false] at heq
    cases hres : env.hooks.triggerOnToolCall s.ctx toolName input with
    | ok c mi =>
      rw [hres] at heq
      injection heq
    | err c e2 =>
      rw [hres] at heq
      injection heq with hs he
      subst hs
      simp

/-- Witness for C7: the unregistered name "frobnicate" in the default
environment, applied at the concrete dispatch outcome. -/
theorem c7_unknown_tool_witness :
    ({ success := false, actionType := .screenshot,
       error := some ("Unknown tool: " ++ "frobnicate") } : ActionResult)
      = { success := false, actionType := .screenshot,
          error := some ("Unknown tool: " ++ "frobnicate") }
    ∧ ({ trace := [Event.onToolCallFired] } : St).trace
        = ({} : St).trace ++ [Event.onToolCallFired]
    ∧ ({ trace := [Event.onToolCallFired] } : St).robotCalls = ({} : St).robotCalls
    ∧ ({ trace := [Event.onToolCallFired] } : St).screenshotCalls
        = ({} : St).screenshotCalls :=
  (c7_unknown_tool plainEnv "frobnicate" {} {} rfl (by decide)).1
    { trace := [Event.onToolCallFired] }
    { success := false, actionType := .screenshot,
      error := some ("Unknown tool: " ++ "frobnicate") } rfl


/-- Claim C9: the custom-tool registry is consulted before the built-in
switch — whenever a custom tool is registered under the dispatched name
(even a built-in name such as "click"), the custom tool runs and its
outcome is wrapped as the result, while the trace shows that the
before/after-action hooks, the conditional handlers, the region-checked
executor (robot) and the screen capture are never reached; if the
on-tool-call chain throws first, nothing beyond it is reached either. -/
theorem c9_custom_tool_shadows_builtin (env : Env) (toolName : String)
    (input : ToolInput) (s : St)
    (hcustom : env.workflow.hasTool toolName = true) :
    (∀ s' rr, ComputerUseAgent.executeTool env toolName input s = .ok s' rr →
      s'.trace = s.trace ++ [Event.onToolCallFired, Event.customToolExec toolName]
      ∧ s'.robotCalls = s.robotCalls ∧ s'.screenshotCalls = s.screenshotCalls
      ∧ ∃ args, rr = customWrap (env.workflow.executeTool toolName args))
    ∧ (∀ s' e, ComputerUseAgent.executeTool env toolName input s = .err s' e →
      s'.trace = s.trace ++ [Event.onToolCallFired]
      ∧ s'.robotCalls = s.robotCalls ∧ s'.screenshotCalls = s.screenshotCalls) := by
  constructor
  · intro s' rr heq
    simp only [ComputerUseAgent.executeTool, hcustom, if_true, ite_true] at heq
    split at heq
    next c e =>
      exact ERes.noConfusion heq
    next c mi hres =>
      split at heq
      next v hwe =>
        injection heq with hs hr
        subst hs
        subst hr
        refine ⟨by simp, rfl, rfl, mi, ?_⟩
        rw [hwe]
        rfl
      next e hwe =>
        injection heq with hs hr
        subst hs
        subst hr
        refine ⟨by simp, rfl, rfl, mi, ?_⟩
        rw [hwe]
        rfl
  · intro s' e heq
    simp only [ComputerUseAgent.executeTool, hcustom, if_true, ite_true] at heq
    split at heq
    next c e2 =>
      injection heq with hs he
      subst hs
      exact ⟨by simp, rfl, rfl⟩
    next c mi hres =>
      split at heq
      next v hwe =>
        exact ERes.noConfusion heq
      next e2 hwe =>
        exact ERes.noConfusion heq

/-- Witness for C9: a custom tool registered under the built-in name
"click" runs instead of the built-in click path. -/
theorem c9_custom_tool_shadows_builtin_witness :
    ({ trace := [Event.onToolCallFired, Event.customToolExec "click"] } : St).trace
      = ({} : St).trace ++ [Event.onToolCallFired, Event.customToolExec "click"]
    ∧ ({ trace := [Event.onToolCallFired, Event.customToolExec "click"] } : St).robotCalls
        = ({} : St).robotCalls
    ∧ ({ trace := [Event.onToolCallFired, Event.customToolExec "click"] } : St).screenshotCalls
        = ({} : St).screenshotCalls
    ∧ ∃ args, ({ success := true, actionType := .screenshot,
                 data := some (.customResult "custom ran") } : ActionResult)
        = customWrap (customClickEnv.workflow.executeTool "click" args) :=
  (c9_custom_tool_shadows_builtin customClickEnv "click" {} {} rfl).1
    { trace := [Event.onToolCallFired, Event.customToolExec "click"] }
    { success := true, actionType := .screenshot,
      data := some (.customResult "custom ran") } rfl

/-- Claim C10: every result produced by the custom-tool path (success or
failure) and by the unknown-tool path carries `actionType` screenshot,
because the source hard-codes `ActionType.SCREENSHOT` on both paths. -/
theorem c10_custom_and_unknown_actiontype (env : Env) (toolName : String)
    (input : ToolInput) (s : St) (s' : St) (rr : ActionResult)
    (hpath : env.workflow.hasTool toolName = true ∨ toolName ∉ builtinToolNames)
    (heq : ComputerUseAgent.executeTool env toolName input s = .ok s' rr) :
    rr.actionType = ActionType.screenshot := by
  by_cases hcustom : env.workflow.hasTool toolName = true
  · simp only [ComputerUseAgent.executeTool, hcustom, if_true, ite_true] at heq
    split at heq
    next c e =>
      exact ERes.noConfusion heq
    next c mi hres =>
      split at heq
      next v hwe =>
        injection heq with hs hr
        subst hr
        rfl
      next e hwe =>
        injection heq with hs hr
        subst hr
        rfl
  · have hbuiltin : toolName ∉ builtinToolNames := by
      rcases hpath with h | h
      · exact absurd h hcustom
      · exact h
    have hc : env.workflow.hasTool toolName = false := by
      simpa using hcustom
    simp only [builtinToolNames, List.mem_cons, List.not_mem_nil, or_false, not_or]
      at hbuiltin
    obtain ⟨h1, h2, h3, h4, h5, h6⟩ := hbuiltin
    simp only [ComputerUseAgent.executeTool, hc, h1, h2, h3, h4, h5, h6,
      Bool.false_eq_true, if_false, ite_false] at heq
    split at heq
    next c e =>
      exact ERes.noConfusion heq
    next c mi hres =>
      injection heq with hs hr
      subst hr
      rfl

/-- Witness for C10: the custom tool registered under "click" yields a
result typed as a screenshot action. -/
theorem c10_custom_and_unknown_actiontype_witness :
    ({ success := true, actionType := .screenshot,
       data := some (.customResult "custom ran") } : ActionResult).actionType
      = ActionType.screenshot :=
  c10_custom_and_unknown_actiontype customClickEnv "click" {} {}
    { trace := [Event.onToolCallFired, Event.customToolExec "click"] }
    { success := true, actionType := .screenshot,
      data := some (.customResult "custom ran") }
    (Or.inl rfl) rfl

theorem runCondPairs_frame (pairs : List (CondPred × CondHandler)) (kind : String)
    (idx : Nat) (action : ToolInput) (s : St) :
    (runCondPairs pairs kind idx action s).robotCalls = s.robotCalls
    ∧ (runCondPairs pairs kind idx action s).screenshotCalls = s.screenshotCalls
    ∧ (runCondPairs pairs kind idx action s).reasoningCalls = s.reasoningCalls
    ∧ (runCondPairs pairs kind idx action s).messages = s.messages := by
  induction pairs generalizing idx s with
  | nil => exact ⟨rfl, rfl, rfl, rfl⟩
  | cons q rest ih =>
    obtain ⟨p, h⟩ := q
    simp only [runCondPairs]
    refine ⟨?_, ?_, ?_, ?_⟩
    · rw [(ih _ _).1]
    · rw [(ih _ _).2.1]
    · rw [(ih _ _).2.2.1]
    · rw [(ih _ _).2.2.2]

theorem checkConditionalHandlers_frame (env : Env) (kind : String) (action : ToolInput)
    (s : St) :
    (checkConditionalHandlers env kind action s).robotCalls = s.robotCalls
    ∧ (checkConditionalHandlers env kind action s).screenshotCalls = s.screenshotCalls
    ∧ (checkConditionalHandlers env kind action s).reasoningCalls = s.reasoningCalls
    ∧ (checkConditionalHandlers env kind action s).messages = s.messages := by
  simp only [checkConditionalHandlers]
  split
  · exact ⟨rfl, rfl, rfl, rfl⟩
  next pairs hlk =>
    refine ⟨?_, ?_, ?_, ?_⟩
    · rw [(runCondPairs_frame _ _ _ _ _).1]
    · rw [(runCondPairs_frame _ _ _ _ _).2.1]
    · rw [(runCondPairs_frame _ _ _ _ _).2.2.1]
    · rw [(runCondPairs_frame _ _ _ _ _).2.2.2]

theorem takeScreenshot_frame (env : Env) (s : St) :
    ((ComputerUseAgent.takeScreenshot env s).stateOf).robotCalls = s.robotCalls
    ∧ ((ComputerUseAgent.takeScreenshot env s).stateOf).reasoningCalls = s.reasoningCalls
    ∧ ((ComputerUseAgent.takeScreenshot env s).stateOf).messages = s.messages := by
  simp only [ComputerUseAgent.takeScreenshot]
  split
  · exact ⟨rfl, rfl, rfl⟩
  next c hbs =>
    split
    · exact ⟨rfl, rfl, rfl⟩
    next img hcap =>
      split <;> exact ⟨rfl, rfl, rfl⟩

theorem executeWithSafety_dry (cfg : ExecutorConfig)
    (f : St → St × Except String ActionData) (t : ActionType) (s : St)
    (hdry : cfg.confirmationMode = "dry-run") :
    executeWithSafety cfg f t s =
      (s, { success := true, actionType := t, data := some .dryRun }) := by
  simp [executeWithSafety, hdry]

theorem click_dry (env : Env) (x? y? : Option Int) (b : MouseButton) (k : Nat) (s : St)
    (hdry : env.execCfg.confirmationMode = "dry-run") :
    (ActionExecutor.click env x? y? b k s).1 = s := by
  unfold ActionExecutor.click
  split
  · rw [executeWithSafety_dry _ _ _ _ hdry]
  · rfl

theorem mouseMove_dry (env : Env) (x? y? : Option Int) (s : St)
    (hdry : env.execCfg.confirmationMode = "dry-run") :
    (ActionExecutor.mouseMove env x? y? s).1 = s := by
  unfold ActionExecutor.mouseMove
  split
  · rw [executeWithSafety_dry _ _ _ _ hdry]
  · rfl

theorem typeText_dry (env : Env) (text? : Option String) (s : St)
    (hdry : env.execCfg.confirmationMode = "dry-run") :
    (ActionExecutor.typeText env text? s).1 = s := by
  unfold ActionExecutor.typeText
  rw [executeWithSafety_dry _ _ _ _ hdry]

theorem pressKey_dry (env : Env) (key? : Option String) (s : St)
    (hdry : env.execCfg.confirmationMode = "dry-run") :
    (ActionExecutor.pressKey env key? s).1 = s := by
  unfold ActionExecutor.pressKey
  rw [executeWithSafety_dry _ _ _ _ hdry]

theorem scroll_dry (env : Env) (d? : Option ScrollDirection) (amt : Int)
    (x? y? : Option Int) (s : St)
    (hdry : env.execCfg.confirmationMode = "dry-run") :
    (ActionExecutor.scroll env d? amt x? y? s).1 = s := by
  unfold ActionExecutor.scroll
  split
  · rfl
  · rw [executeWithSafety_dry _ _ _ _ hdry]

theorem runBuiltin_frame (env : Env) (kind : String) (mi : ToolInput)
    (execF : ToolInput → St → St × ActionResult) (s : St)
    (hf : ∀ a s2, ((execF a s2).1).robotCalls = s2.robotCalls
        ∧ ((execF a s2).1).screenshotCalls = s2.screenshotCalls
        ∧ ((execF a s2).1).reasoningCalls = s2.reasoningCalls
        ∧ ((execF a s2).1).messages = s2.messages) :
    ((runBuiltin env kind mi execF s).stateOf).robotCalls = s.robotCalls
    ∧ ((runBuiltin env kind mi execF s).stateOf).screenshotCalls = s.screenshotCalls
    ∧ ((runBuiltin env kind mi execF s).stateOf).reasoningCalls = s.reasoningCalls
    ∧ ((runBuiltin env kind mi execF s).stateOf).messages = s.messages := by
  simp only [runBuiltin]
  split
  · exact ⟨rfl, rfl, rfl, rfl⟩
  next c action hres =>
    split
    next c2 e =>
      refine ⟨?_, ?_, ?_, ?_⟩ <;> simp [ERes.stateOf, (hf _ _).1, (hf _ _).2.1,
        (hf _ _).2.2.1, (hf _ _).2.2.2]
    next c2 u =>
      refine ⟨?_, ?_, ?_, ?_⟩ <;>
        simp [ERes.stateOf, (checkConditionalHandlers_frame _ _ _ _).1,
          (checkConditionalHandlers_frame _ _ _ _).2.1,
          (checkConditionalHandlers_frame _ _ _ _).2.2.1,
          (checkConditionalHandlers_frame _ _ _ _).2.2.2,
          (hf _ _).1, (hf _ _).2.1, (hf _ _).2.2.1, (hf _ _).2.2.2]

theorem triggerOnToolCall_empty (reg : HookRegistry) (c : AgentContext) (n : String)
    (a : ToolInput) (h1 : List.lookup n reg.onToolCall = none)
    (h2 : reg.onToolCallStar = []) :
    reg.triggerOnToolCall c n a = .ok c a := by
  simp [HookRegistry.triggerOnToolCall, h1, h2, chainMutHooks]

theorem executeTool_dry_robotCalls (env : Env) (toolName : String) (input : ToolInput)
    (s : St) (hdry : env.execCfg.confirmationMode = "dry-run") :
    ((ComputerUseAgent.executeTool env toolName input s).stateOf).robotCalls
      = s.robotCalls := by
  simp only [ComputerUseAgent.executeTool]
  split
  · rfl
  next c mi hres =>
    by_cases ht : env.workflow.hasTool toolName = true
    · simp only [ht, if_true, ite_true]
      split <;> rfl
    · rw [if_neg ht]
      by_cases h1 : toolName = "screenshot"
      · rw [if_pos h1]
        split <;> rename_i hts <;>
          (first
            | (have h := (takeScreenshot_frame env
                  { s with ctx := c, trace := s.trace ++ [Event.onToolCallFired] }).1
               rw [hts] at h
               exact h))
      · rw [if_neg h1]
        by_cases h2 : toolName = "mouse_move"
        · rw [if_pos h2]
          have hf : ∀ (a : ToolInput) (s2 : St),
              ((ActionExecutor.mouseMove env a.x a.y s2).1).robotCalls = s2.robotCalls
              ∧ ((ActionExecutor.mouseMove env a.x a.y s2).1).screenshotCalls = s2.screenshotCalls
              ∧ ((ActionExecutor.mouseMove env a.x a.y s2).1).reasoningCalls = s2.reasoningCalls
              ∧ ((ActionExecutor.mouseMove env a.x a.y s2).1).messages = s2.messages := by
            intro a s2
            rw [mouseMove_dry env a.x a.y s2 hdry]
            exact ⟨rfl, rfl, rfl, rfl⟩
          exact (runBuiltin_frame env "mouse_move" mi _ _ hf).1
        · rw [if_neg h2]
          by_cases h3 : toolName = "click"
          · rw [if_pos h3]
            have hf : ∀ (a : ToolInput) (s2 : St),
                ((ActionExecutor.click env a.x a.y (a.button.getD .left) (a.clicks.getD 1) s2).1).robotCalls = s2.robotCalls
                ∧ ((ActionExecutor.click env a.x a.y (a.button.getD .left) (a.clicks.getD 1) s2).1).screenshotCalls = s2.screenshotCalls
                ∧ ((ActionExecutor.click env a.x a.y (a.button.getD .left) (a.clicks.getD 1) s2).1).reasoningCalls = s2.reasoningCalls
                ∧ ((ActionExecutor.click env a.x a.y (a.button.getD .left) (a.clicks.getD 1) s2).1).messages = s2.messages := by
              intro a s2
              rw [click_dry env a.x a.y (a.button.getD .left) (a.clicks.getD 1) s2 hdry]
              exact ⟨rfl, rfl, rfl, rfl⟩
            exact (runBuiltin_frame env "click" mi _ _ hf).1
          · rw [if_neg h3]
            by_cases h4 : toolName = "type"
            · rw [if_pos h4]
              have hf : ∀ (a : ToolInput) (s2 : St),
                  ((ActionExecutor.typeText env a.text s2).1).robotCalls = s2.robotCalls
                  ∧ ((ActionExecutor.typeText env a.text s2).1).screenshotCalls = s2.screenshotCalls
                  ∧ ((ActionExecutor.typeText env a.text s2).1).reasoningCalls = s2.reasoningCalls
                  ∧ ((ActionExecutor.typeText env a.text s2).1).messages = s2.messages := by
                intro a s2
                rw [typeText_dry env a.text s2 hdry]
                exact ⟨rfl, rfl, rfl, rfl⟩
              exact (runBuiltin_frame env "type" mi _ _ hf).1
            · rw [if_neg h4]
              by_cases h5 : toolName = "key"
              · rw [if_pos h5]
                have hf : ∀ (a : ToolInput) (s2 : St),
                    ((ActionExecutor.pressKey env a.key s2).1).robotCalls = s2.robotCalls
                    ∧ ((ActionExecutor.pressKey env a.key s2).1).screenshotCalls = s2.screenshotCalls
                    ∧ ((ActionExecutor.pressKey env a.key s2).1).reasoningCalls = s2.reasoningCalls
                    ∧ ((ActionExecutor.pressKey env a.key s2).1).messages = s2.messages := by
                  intro a s2
                  rw [pressKey_dry env a.key s2 hdry]
                  exact ⟨rfl, rfl, rfl, rfl⟩
                exact (runBuiltin_frame env "key" mi _ _ hf).1
              · rw [if_neg h5]
                by_cases h6 : toolName = "scroll"
                · rw [if_pos h6]
                  have hf : ∀ (a : ToolInput) (s2 : St),
                      ((ActionExecutor.scroll env a.direction (a.amount.getD 3) a.x a.y s2).1).robotCalls = s2.robotCalls
                      ∧ ((ActionExecutor.scroll env a.direction (a.amount.getD 3) a.x a.y s2).1).screenshotCalls = s2.screenshotCalls
                      ∧ ((ActionExecutor.scroll env a.direction (a.amount.getD 3) a.x a.y s2).1).reasoningCalls = s2.reasoningCalls
                      ∧ ((ActionExecutor.scroll env a.direction (a.amount.getD 3) a.x a.y s2).1).messages = s2.messages := by
                    intro a s2
                    rw [scroll_dry env a.direction (a.amount.getD 3) a.x a.y s2 hdry]
                    exact ⟨rfl, rfl, rfl, rfl⟩
                  exact (runBuiltin_frame env "scroll" mi _ _ hf).1
                · rw [if_neg h6]
                  rfl

theorem executeTool_dry_marker (env : Env) (toolName : String) (input : ToolInput)
    (s : St) (hdry : env.execCfg.confirmationMode = "dry-run")
    (hBA : env.hooks.beforeAction = [])
    (hOTC : List.lookup toolName env.hooks.onToolCall = none)
    (hstar : env.hooks.onToolCallStar = [])
    (hAA : env.hooks.afterAction = [])
    (hcustom : env.workflow.hasTool toolName = false)
    (hname : toolName = "mouse_move" ∨ toolName = "click" ∨ toolName = "type"
      ∨ toolName = "key" ∨ toolName = "scroll")
    (hregion : builtinRegionOk env.execCfg toolName input = true) :
    (ComputerUseAgent.executeTool env toolName input s).okVal?
      = some { success := true, actionType := builtinActionType toolName,
               data := some ActionData.dryRun } := by
  have htr := triggerOnToolCall_empty env.hooks s.ctx toolName input hOTC hstar
  rcases hname with h | h | h | h | h <;> subst h
  · simp [builtinRegionOk] at hregion
    simp [ComputerUseAgent.executeTool, htr, hcustom, runBuiltin,
      HookRegistry.triggerBeforeAction, hBA, chainMutHooks, hAA, runCtxHooks,
      ActionExecutor.mouseMove, hregion, executeWithSafety, hdry, ERes.okVal?, builtinActionType]
  · simp [builtinRegionOk] at hregion
    simp [ComputerUseAgent.executeTool, htr, hcustom, runBuiltin,
      HookRegistry.triggerBeforeAction, hBA, chainMutHooks, hAA, runCtxHooks,
      ActionExecutor.click, hregion, executeWithSafety, hdry, ERes.okVal?, builtinActionType]
  · simp [ComputerUseAgent.executeTool, htr, hcustom, runBuiltin,
      HookRegistry.triggerBeforeAction, hBA, chainMutHooks, hAA, runCtxHooks,
      ActionExecutor.typeText, executeWithSafety, hdry, ERes.okVal?, builtinActionType]
  · simp [ComputerUseAgent.executeTool, htr, hcustom, runBuiltin,
      HookRegistry.triggerBeforeAction, hBA, chainMutHooks, hAA, runCtxHooks,
      ActionExecutor.pressKey, executeWithSafety, hdry, ERes.okVal?, builtinActionType]
  · simp [builtinRegionOk] at hregion
    simp [ComputerUseAgent.executeTool, htr, hcustom, runBuiltin,
      HookRegistry.triggerBeforeAction, hBA, chainMutHooks, hAA, runCtxHooks,
      ActionExecutor.scroll, hregion, executeWithSafety, hdry, ERes.okVal?, builtinActionType]
    have hnc : ¬((input.x.isSome = true ∧ input.y.isSome = true)
        ∧ checkAllowed env.execCfg input.x input.y = false) := by
      rintro ⟨⟨hx, hy⟩, hc⟩
      rcases hregion with (hn | hn) | hck
      · rw [hn] at hx
        exact absurd hx (by simp)
      · rw [hn] at hy
        exact absurd hy (by simp)
      · rw [hck] at hc
        exact absurd hc (by simp)
    rw [if_neg hnc]

/-- Counterexample to C5 as stated: in dry-run mode, dispatching the
built-in "screenshot" action performs a real screen capture and returns
its image as the result data — not the dry-run marker the claim
requires for "any built-in action (including screenshot)". -/
theorem c5_dry_run_counterexample :
    (ComputerUseAgent.executeTool dryEnv "screenshot" {} {}).okVal?
      = some { success := true, actionType := .screenshot,
               data := some (ActionData.image "IMG") }
    ∧ some (ActionData.image "IMG") ≠ some ActionData.dryRun := by
  exact ⟨rfl, by decide⟩

/-- Claim C5 (amended): in dry-run mode no dispatch ever invokes the
physical executor — the robot call counter is unchanged for every tool
name, input, and hook behaviour, whether the dispatch returns or throws;
and every executor-backed built-in action (mouse_move, click, type, key,
scroll) dispatched without interfering registrations, whose region gate
passes, yields a successful ActionResult carrying the dry-run marker.
(The claim's inclusion of "screenshot" among dry-run-marked actions is
dropped: the screenshot branch bypasses the executor and returns image
data, see the counterexample; and out-of-region coordinate actions fail
rather than carry the marker, hence the region-gate hypothesis.) -/
theorem c5_dry_run_amended :
    (∀ (env : Env) (toolName : String) (input : ToolInput) (s : St),
      env.execCfg.confirmationMode = "dry-run" →
      ((ComputerUseAgent.executeTool env toolName input s).stateOf).robotCalls
        = s.robotCalls)
    ∧ (∀ (env : Env) (toolName : String) (input : ToolInput) (s : St),
      env.execCfg.confirmationMode = "dry-run" →
      env.hooks.beforeAction = [] →
      List.lookup toolName env.hooks.onToolCall = none →
      env.hooks.onToolCallStar = [] →
      env.hooks.afterAction = [] →
      env.workflow.hasTool toolName = false →
      (toolName = "mouse_move" ∨ toolName = "click" ∨ toolName = "type"
        ∨ toolName = "key" ∨ toolName = "scroll") →
      builtinRegionOk env.execCfg toolName input = true →
      (ComputerUseAgent.executeTool env toolName input s).okVal?
        = some { success := true, actionType := builtinActionType toolName,
                 data := some ActionData.dryRun }) :=
  ⟨executeTool_dry_robotCalls, executeTool_dry_marker⟩

/-- Witness for the amended C5: a dry-run click leaves the robot call
counter untouched and returns the dry-run-marked success result. -/
theorem c5_dry_run_amended_witness :
    ((ComputerUseAgent.executeTool dryEnv "click" { x := some 3, y := some 4 } {}).stateOf).robotCalls
      = ({} : St).robotCalls
    ∧ (ComputerUseAgent.executeTool dryEnv "click" { x := some 3, y := some 4 } {}).okVal?
        = some { success := true, actionType := builtinActionType "click",
                 data := some ActionData.dryRun } :=
  ⟨c5_dry_run_amended.1 dryEnv "click" { x := some 3, y := some 4 } {} rfl,
   c5_dry_run_amended.2 dryEnv "click" { x := some 3, y := some 4 } {} rfl rfl rfl rfl rfl
     rfl (Or.inr (Or.inl rfl)) rfl⟩

theorem runCtxHooks_allOk (hs : List CtxHook) (c : AgentContext)
    (h : ∀ f ∈ hs, ∀ c2, (f c2).isOk = true) :
    ∃ c', runCtxHooks hs c = .ok c' () := by
  induction hs generalizing c with
  | nil => exact ⟨c, rfl⟩
  | cons f rest ih =>
    have hf := h f (List.mem_cons_self f rest) c
    cases hfc : f c with
    | ok c1 u =>
      simp only [runCtxHooks, hfc]
      exact ih c1 fun g hg => h g (List.mem_cons_of_mem f hg)
    | err c1 e =>
      rw [hfc] at hf
      exact absurd hf (by simp [ERes.isOk])

theorem takeScreenshot_noRaise (env : Env) (s : St)
    (hBS : ∀ f ∈ env.hooks.beforeScreenshot, ∀ c, (f c).isOk = true)
    (hAS : ∀ f ∈ env.hooks.afterScreenshot, ∀ c img, (f c img).isOk = true)
    (hCap : ∀ k, ∃ v, env.screenCapture k = .ok v) :
    ∃ s' img, ComputerUseAgent.takeScreenshot env s = .ok s' img := by
  simp only [ComputerUseAgent.takeScreenshot]
  obtain ⟨c1, hc1⟩ := runCtxHooks_allOk env.hooks.beforeScreenshot s.ctx hBS
  obtain ⟨v, hv⟩ := hCap s.screenshotCalls
  simp only [hc1, hv]
  have hmap : ∀ f ∈ env.hooks.afterScreenshot.map (fun h => fun c2 => h c2 v),
      ∀ c2, (f c2).isOk = true := by
    intro f hf c2
    obtain ⟨g, hg, rfl⟩ := List.mem_map.mp hf
    exact hAS g hg c2 v
  obtain ⟨c2, hc2⟩ := runCtxHooks_allOk
    (env.hooks.afterScreenshot.map (fun h => fun c2 => h c2 v))
    { state := c1.state, iteration := c1.iteration, actionHistory := c1.actionHistory,
      lastScreenshot := some v } hmap
  simp only [hc2]
  exact ⟨_, v, rfl⟩

theorem stIterStart_noRaise (env : Env) (i : Nat) (s : St)
    (hIS : ∀ f ∈ env.hooks.onIterationStart, ∀ c j, (f c j).isOk = true) :
    ∃ s', stIterStart env i s = .ok s' () := by
  simp only [stIterStart]
  have hmap : ∀ f ∈ env.hooks.onIterationStart.map (fun h => fun c => h c i),
      ∀ c, (f c).isOk = true := by
    intro f hf c
    obtain ⟨g, hg, rfl⟩ := List.mem_map.mp hf
    exact hIS g hg c i
  obtain ⟨c1, hc1⟩ := runCtxHooks_allOk _ _ hmap
  rw [hc1]
  exact ⟨_, rfl⟩

theorem runLoop_noRaise (env : Env) (remaining iteration : Nat) (s : St)
    (hIS : ∀ f ∈ env.hooks.onIterationStart, ∀ c j, (f c j).isOk = true) :
    (runLoop env remaining iteration s).isOk = true := by
  induction remaining generalizing iteration s with
  | zero => rfl
  | succ r ih =>
    simp only [runLoop]
    obtain ⟨s1, hs1⟩ := stIterStart_noRaise env iteration
      { s with ctx := { s.ctx with iteration := iteration } } hIS
    simp only [hs1]
    cases htb : runTurnBody env iteration s1 with
    | err s2 e =>
      simp only [htb]
      rfl
    | ok s2 sig =>
      cases sig with
      | breakLoop =>
        simp only [htb]
        rfl
      | continueLoop =>
        simp only [htb]
        exact ih (iteration + 1) s2

/-- Counterexample to C2 as stated: when the screen capture throws, the
initial screenshot of `run` — taken before the loop's try/catch — lets
the exception escape `run` itself (an `err` outcome), instead of being
returned as a structured failure result. -/
theorem c2_no_raise_counterexample :
    (ComputerUseAgent.run boomEnv "goal" 3 {}).isOk = false := rfl

/-- Claim C2 (amended): `run` returns a structured result — it never
lets an exception escape — provided the initial screenshot path
(before/after-screenshot hooks and the capture itself) and the
iteration-start hooks do not throw; every other failure (reasoning
service, tool dispatch, remaining hooks) is caught by the per-iteration
try/catch and converted into the failure record carrying the error, the
iteration, and the state so far (the `RunResult.failure` constructor
built in `runLoop`).  Without those hypotheses the claim is false, see
the counterexample: the initial screenshot and the iteration-start
trigger sit outside the try block in the source. -/
theorem c2_no_raise_amended (env : Env) (goal : String) (n : Nat) (s : St)
    (hBS : ∀ f ∈ env.hooks.beforeScreenshot, ∀ c, (f c).isOk = true)
    (hAS : ∀ f ∈ env.hooks.afterScreenshot, ∀ c img, (f c img).isOk = true)
    (hCap : ∀ k, ∃ v, env.screenCapture k = .ok v)
    (hIS : ∀ f ∈ env.hooks.onIterationStart, ∀ c j, (f c j).isOk = true) :
    (ComputerUseAgent.run env goal n s).isOk = true := by
  simp only [ComputerUseAgent.run]
  obtain ⟨s1, img, hts⟩ :=
    takeScreenshot_noRaise env { s with ctx := {}, messages := [] } hBS hAS hCap
  simp only [hts]
  exact runLoop_noRaise env n 0 _ hIS

/-- Witness for the amended C2 in the plain environment. -/
theorem c2_no_raise_amended_witness :
    (ComputerUseAgent.run plainEnv "g" 2 {}).isOk = true :=
  c2_no_raise_amended plainEnv "g" 2 {} (by simp [plainEnv]) (by simp [plainEnv])
    (fun k => ⟨"", rfl⟩) (by simp [plainEnv])

theorem robotOp_shape (env : Env) (s : St) :
    ∃ r2, robotOp env s = ({ s with robotCalls := s.robotCalls + 1 }, r2) := by
  cases henv : env.robotFail s.robotCalls with
  | some e => exact ⟨.error e, by simp [robotOp, henv]⟩
  | none => exact ⟨.ok (), by simp [robotOp, henv]⟩

theorem clicksLoop_shape (env : Env) (k : Nat) (s : St) :
    ∃ m r2, clicksLoop env k s = ({ s with robotCalls := m }, r2) := by
  induction k generalizing s with
  | zero => exact ⟨s.robotCalls, .ok (), rfl⟩
  | succ k1 ih =>
    obtain ⟨r2, hro⟩ := robotOp_shape env s
    cases r2 with
    | error e =>
      exact ⟨s.robotCalls + 1, .error e, by simp [clicksLoop, hro]⟩
    | ok u =>
      obtain ⟨m, r3, hloop⟩ := ih { s with robotCalls := s.robotCalls + 1 }
      exact ⟨m, r3, by simp [clicksLoop, hro, hloop]⟩

theorem mouseMoveFunc_shape (env : Env) (x? y? : Option Int) (s : St) :
    ∃ m r2, mouseMoveFunc env x? y? s = ({ s with robotCalls := m }, r2) := by
  obtain ⟨r2, hro⟩ := robotOp_shape env s
  cases r2 with
  | error e => exact ⟨s.robotCalls + 1, .error e, by simp [mouseMoveFunc, hro]⟩
  | ok u => exact ⟨s.robotCalls + 1, .ok (.moveData x? y?), by simp [mouseMoveFunc, hro]⟩

theorem clickFunc_shape (env : Env) (x? y? : Option Int) (b : MouseButton) (k : Nat)
    (s : St) :
    ∃ m r2, clickFunc env x? y? b k s = ({ s with robotCalls := m }, r2) := by
  obtain ⟨r2, hro⟩ := robotOp_shape env s
  cases r2 with
  | error e => exact ⟨s.robotCalls + 1, .error e, by simp [clickFunc, hro]⟩
  | ok u =>
    obtain ⟨m, r3, hloop⟩ := clicksLoop_shape env k { s with robotCalls := s.robotCalls + 1 }
    cases r3 with
    | error e => exact ⟨m, .error e, by simp [clickFunc, hro, hloop]⟩
    | ok u2 =>
      exact ⟨m, .ok (.clickData x? y? b k), by simp [clickFunc, hro, hloop]⟩

theorem typeTextFunc_shape (env : Env) (t? : Option String) (s : St) :
    ∃ m r2, typeTextFunc env t? s = ({ s with robotCalls := m }, r2) := by
  obtain ⟨r2, hro⟩ := robotOp_shape env s
  cases r2 with
  | error e => exact ⟨s.robotCalls + 1, .error e, by simp [typeTextFunc, hro]⟩
  | ok u =>
    exact ⟨s.robotCalls + 1, .ok (.typeData t? (t?.getD "").length), by simp [typeTextFunc, hro]⟩

theorem pressKeyFunc_shape (env : Env) (k? : Option String) (s : St) :
    ∃ m r2, pressKeyFunc env k? s = ({ s with robotCalls := m }, r2) := by
  obtain ⟨r2, hro⟩ := robotOp_shape env s
  cases r2 with
  | error e => exact ⟨s.robotCalls + 1, .error e, by simp [pressKeyFunc, hro]⟩
  | ok u => exact ⟨s.robotCalls + 1, .ok (.keyData k?), by simp [pressKeyFunc, hro]⟩

theorem scrollFunc_shape (env : Env) (d? : Option ScrollDirection) (amt : Int)
    (x? y? : Option Int) (s : St) :
    ∃ m r2, scrollFunc env d? amt x? y? s = ({ s with robotCalls := m }, r2) := by
  by_cases hxy : (x?.isSome && y?.isSome) = true
  · obtain ⟨r2, hro⟩ := robotOp_shape env s
    cases r2 with
    | error e => exact ⟨s.robotCalls + 1, .error e, by simp [scrollFunc, hxy, hro]⟩
    | ok u =>
      obtain ⟨r3, hro2⟩ := robotOp_shape env { s with robotCalls := s.robotCalls + 1 }
      cases r3 with
      | error e => exact ⟨s.robotCalls + 1 + 1, .error e, by simp [scrollFunc, hxy, hro, hro2]⟩
      | ok u2 =>
        exact ⟨s.robotCalls + 1 + 1, .ok (.scrollData d? amt), by simp [scrollFunc, hxy, hro, hro2]⟩
  · obtain ⟨r3, hro2⟩ := robotOp_shape env s
    cases r3 with
    | error e => exact ⟨s.robotCalls + 1, .error e, by simp [scrollFunc, hxy, hro2]⟩
    | ok u2 => exact ⟨s.robotCalls + 1, .ok (.scrollData d? amt), by simp [scrollFunc, hxy, hro2]⟩

theorem executeWithSafety_shape (cfg : ExecutorConfig)
    (f : St → St × Except String ActionData) (t : ActionType) (s : St)
    (hF : ∀ s2, ∃ m r2, f s2 = ({ s2 with robotCalls := m }, r2)) :
    ∃ m r, executeWithSafety cfg f t s = ({ s with robotCalls := m }, r) := by
  by_cases hdry : cfg.confirmationMode = "dry-run"
  · exact ⟨s.robotCalls, { success := true, actionType := t, data := some .dryRun },
      by simp [executeWithSafety, hdry]⟩
  · obtain ⟨m, r2, hf⟩ := hF s
    cases r2 with
    | ok d =>
      exact ⟨m, { success := true, actionType := t, data := some d },
        by simp [executeWithSafety, hdry, hf]⟩
    | error e =>
      exact ⟨m, { success := false, actionType := t, error := some e },
        by simp [executeWithSafety, hdry, hf]⟩

theorem mouseMove_shape (env : Env) (x? y? : Option Int) (s : St) :
    ∃ m r, ActionExecutor.mouseMove env x? y? s = ({ s with robotCalls := m }, r) := by
  unfold ActionExecutor.mouseMove
  split
  · exact executeWithSafety_shape _ _ _ _ (mouseMoveFunc_shape env x? y?)
  · exact ⟨s.robotCalls,
      { success := false, actionType := .mouseMove, error := some (outOfRegionMsg x? y?) },
      rfl⟩

theorem click_shape (env : Env) (x? y? : Option Int) (b : MouseButton) (k : Nat) (s : St) :
    ∃ m r, ActionExecutor.click env x? y? b k s = ({ s with robotCalls := m }, r) := by
  unfold ActionExecutor.click
  split
  · exact executeWithSafety_shape _ _ _ _ (clickFunc_shape env x? y? b k)
  · exact ⟨s.robotCalls,
      { success := false, actionType := .click, error := some (outOfRegionMsg x? y?) },
      rfl⟩

theorem typeText_shape (env : Env) (t? : Option String) (s : St) :
    ∃ m r, ActionExecutor.typeText env t? s = ({ s with robotCalls := m }, r) := by
  unfold ActionExecutor.typeText
  exact executeWithSafety_shape _ _ _ _ (typeTextFunc_shape env t?)

theorem pressKey_shape (env : Env) (k? : Option String) (s : St) :
    ∃ m r, ActionExecutor.pressKey env k? s = ({ s with robotCalls := m }, r) := by
  unfold ActionExecutor.pressKey
  exact executeWithSafety_shape _ _ _ _ (pressKeyFunc_shape env k?)

theorem scroll_shape (env : Env) (d? : Option ScrollDirection) (amt : Int)
    (x? y? : Option Int) (s : St) :
    ∃ m r, ActionExecutor.scroll env d? amt x? y? s = ({ s with robotCalls := m }, r) := by
  unfold ActionExecutor.scroll
  split
  · exact ⟨s.robotCalls,
      { success := false, actionType := .scroll, error := some (outOfRegionMsg x? y?) },
      rfl⟩
  · exact executeWithSafety_shape _ _ _ _ (scrollFunc_shape env d? amt x? y?)

theorem stIterStart_empty (env : Env) (i : Nat) (s : St) (hhooks : env.hooks = {}) :
    stIterStart env i s = .ok { s with trace := s.trace ++ [Event.iterStartFired i] } () := by
  simp [stIterStart, hhooks, runCtxHooks]

theorem stIterEnd_empty (env : Env) (i : Nat) (s : St) (hhooks : env.hooks = {}) :
    stIterEnd env i s = .ok { s with trace := s.trace ++ [Event.iterEndFired i] } () := by
  simp [stIterEnd, hhooks, runCtxHooks]

theorem takeScreenshot_empty (env : Env) (s : St) (v : String)
    (hhooks : env.hooks = {})
    (hv : env.screenCapture s.screenshotCalls = .ok v) :
    ComputerUseAgent.takeScreenshot env s =
      .ok { s with ctx := { s.ctx with lastScreenshot := some v }, screenshotCalls := s.screenshotCalls + 1, trace := s.trace ++ [Event.screenshotTaken] } v := by
  simp [ComputerUseAgent.takeScreenshot, hhooks, runCtxHooks, hv]

theorem runBuiltin_empty (env : Env) (kind : String) (mi : ToolInput)
    (execF : ToolInput → St → St × ActionResult) (s : St) (m : Nat) (r : ActionResult)
    (hhooks : env.hooks = {}) (hhand : env.workflow.conditionalHandlers = [])
    (hp : execF mi { s with trace := s.trace ++ [Event.beforeActionFired] }
      = ({ s with robotCalls := m, trace := s.trace ++ [Event.beforeActionFired] }, r)) :
    runBuiltin env kind mi execF s
      = .ok { s with robotCalls := m, trace := ((s.trace ++ [Event.beforeActionFired]) ++ [Event.afterActionFired]) ++ [Event.condCheck kind] } r := by
  simp [runBuiltin, hhooks, HookRegistry.triggerBeforeAction, chainMutHooks, hp,
    runCtxHooks, checkConditionalHandlers, hhand]

theorem executeTool_benign (env : Env) (toolName : String) (input : ToolInput) (s : St)
    (hhooks : env.hooks = {})
    (hhand : env.workflow.conditionalHandlers = [])
    (hCap : ∀ k, ∃ v, env.screenCapture k = Except.ok v) :
    ∃ s' r, ComputerUseAgent.executeTool env toolName input s = .ok s' r
      ∧ s'.ctx.iteration = s.ctx.iteration ∧ s'.messages = s.messages
      ∧ s'.reasoningCalls = s.reasoningCalls := by
  have htr : env.hooks.triggerOnToolCall s.ctx toolName input = .ok s.ctx input := by
    rw [hhooks]
    rfl
  simp only [ComputerUseAgent.executeTool, htr]
  by_cases ht : env.workflow.hasTool toolName = true
  · simp only [ht, if_true, ite_true]
    cases hwe : env.workflow.executeTool toolName input with
    | ok v => exact ⟨_, _, rfl, rfl, rfl, rfl⟩
    | error e => exact ⟨_, _, rfl, rfl, rfl, rfl⟩
  · rw [if_neg ht]
    by_cases h1 : toolName = "screenshot"
    · rw [if_pos h1]
      obtain ⟨v, hv⟩ := hCap s.screenshotCalls
      rw [takeScreenshot_empty env
        { s with ctx := s.ctx, trace := s.trace ++ [Event.onToolCallFired] } v hhooks hv]
      exact ⟨_, _, rfl, rfl, rfl, rfl⟩
    · rw [if_neg h1]
      by_cases h2 : toolName = "mouse_move"
      · rw [if_pos h2]
        obtain ⟨m, r, hp⟩ := mouseMove_shape env input.x input.y
          { s with ctx := s.ctx, trace := (s.trace ++ [Event.onToolCallFired]) ++ [Event.beforeActionFired] }
        rw [runBuiltin_empty env "mouse_move" input _
          { s with ctx := s.ctx, trace := s.trace ++ [Event.onToolCallFired] } m r hhooks hhand hp]
        exact ⟨_, _, rfl, rfl, rfl, rfl⟩
      · rw [if_neg h2]
        by_cases h3 : toolName = "click"
        · rw [if_pos h3]
          obtain ⟨m, r, hp⟩ := click_shape env input.x input.y (input.button.getD .left)
            (input.clicks.getD 1)
            { s with ctx := s.ctx, trace := (s.trace ++ [Event.onToolCallFired]) ++ [Event.beforeActionFired] }
          rw [runBuiltin_empty env "click" input _
            { s with ctx := s.ctx, trace := s.trace ++ [Event.onToolCallFired] } m r hhooks hhand hp]
          exact ⟨_, _, rfl, rfl, rfl, rfl⟩
        · rw [if_neg h3]
          by_cases h4 : toolName = "type"
          · rw [if_pos h4]
            obtain ⟨m, r, hp⟩ := typeText_shape env input.text
              { s with ctx := s.ctx, trace := (s.trace ++ [Event.onToolCallFired]) ++ [Event.beforeActionFired] }
            rw [runBuiltin_empty env "type" input _
              { s with ctx := s.ctx, trace := s.trace ++ [Event.onToolCallFired] } m r hhooks hhand hp]
            exact ⟨_, _, rfl, rfl, rfl, rfl⟩
          · rw [if_neg h4]
            by_cases h5 : toolName = "key"
            · rw [if_pos h5]
              obtain ⟨m, r, hp⟩ := pressKey_shape env input.key
                { s with ctx := s.ctx, trace := (s.trace ++ [Event.onToolCallFired]) ++ [Event.beforeActionFired] }
              rw [runBuiltin_empty env "key" input _
                { s with ctx := s.ctx, trace := s.trace ++ [Event.onToolCallFired] } m r hhooks hhand hp]
              exact ⟨_, _, rfl, rfl, rfl, rfl⟩
            · rw [if_neg h5]
              by_cases h6 : toolName = "scroll"
              · rw [if_pos h6]
                obtain ⟨m, r, hp⟩ := scroll_shape env input.direction (input.amount.getD 3)
                  input.x input.y
                  { s with ctx := s.ctx, trace := (s.trace ++ [Event.onToolCallFired]) ++ [Event.beforeActionFired] }
                rw [runBuiltin_empty env "scroll" input _
                  { s with ctx := s.ctx, trace := s.trace ++ [Event.onToolCallFired] } m r hhooks hhand hp]
                exact ⟨_, _, rfl, rfl, rfl, rfl⟩
              · rw [if_neg h6]
                exact ⟨_, _, rfl, rfl, rfl, rfl⟩

theorem processToolUseBlocks_benign (env : Env) (blocks : List ContentBlock) (s : St)
    (hhooks : env.hooks = {}) (hhand : env.workflow.conditionalHandlers = [])
    (hCap : ∀ k, ∃ v, env.screenCapture k = Except.ok v) :
    ∃ s' trs, processToolUseBlocks env blocks s = .ok s' trs
      ∧ s'.ctx.iteration = s.ctx.iteration ∧ s'.messages = s.messages
      ∧ s'.reasoningCalls = s.reasoningCalls := by
  induction blocks generalizing s with
  | nil => exact ⟨s, [], rfl, rfl, rfl, rfl⟩
  | cons b rest ih =>
    cases b with
    | toolUse id name inp =>
      obtain ⟨s1, r, heq, hit, hmsg, hrc⟩ := executeTool_benign env name inp s hhooks hhand hCap
      obtain ⟨s2, trs, heq2, hit2, hmsg2, hrc2⟩ :=
        ih { s1 with ctx := { s1.ctx with actionHistory := s1.ctx.actionHistory ++ [r] } }
      refine ⟨s2, ContentBlock.toolResult id (toolResultContentFor name r) :: trs, ?_, ?_, ?_, ?_⟩
      · simp only [processToolUseBlocks, heq, heq2]
      · exact (hit2.trans hit)
      · exact (hmsg2.trans hmsg)
      · exact (hrc2.trans hrc)
    | image b64 =>
      obtain ⟨s2, trs, heq2, hit2, hmsg2, hrc2⟩ := ih s
      exact ⟨s2, trs, by simp only [processToolUseBlocks, heq2], hit2, hmsg2, hrc2⟩
    | text t =>
      obtain ⟨s2, trs, heq2, hit2, hmsg2, hrc2⟩ := ih s
      exact ⟨s2, trs, by simp only [processToolUseBlocks, heq2], hit2, hmsg2, hrc2⟩
    | toolResult tid content =>
      obtain ⟨s2, trs, heq2, hit2, hmsg2, hrc2⟩ := ih s
      exact ⟨s2, trs, by simp only [processToolUseBlocks, heq2], hit2, hmsg2, hrc2⟩

theorem runTurnBody_benign (env : Env) (i : Nat) (s : St)
    (hhooks : env.hooks = {}) (hhand : env.workflow.conditionalHandlers = [])
    (hCap : ∀ k, ∃ v, env.screenCapture k = Except.ok v)
    (hreason : ∀ k msgs, ∃ resp, env.reasoning k msgs = Except.ok resp
      ∧ resp.stopReason = "tool_use") :
    ∃ s', runTurnBody env i s = .ok s' .continueLoop
      ∧ s'.ctx.iteration = s.ctx.iteration
      ∧ s'.reasoningCalls = s.reasoningCalls + 1 := by
  obtain ⟨resp, hre, hsr⟩ := hreason s.reasoningCalls s.messages
  obtain ⟨s2, trs, hptu, hit, hmsg, hrc⟩ := processToolUseBlocks_benign env resp.content
    { s with reasoningCalls := s.reasoningCalls + 1, trace := s.trace ++ [Event.reasoningCall s.reasoningCalls], messages := s.messages ++ [{ role := "assistant", content := resp.content }] }
    hhooks hhand hCap
  have hne : ¬(resp.stopReason = "end_turn") := by
    rw [hsr]
    decide
  refine ⟨{ s2 with messages := s2.messages ++ [{ role := "user", content := trs }], trace := s2.trace ++ [Event.iterEndFired i] }, ?_, ?_, ?_⟩
  · simp only [runTurnBody, hre]
    rw [if_neg hne, if_pos hsr]
    simp only [hptu]
    simp only [stIterEnd_empty env i
      { s2 with messages := s2.messages ++ [{ role := "user", content := trs }] } hhooks]
  · exact hit
  · exact hrc

theorem runLoop_benign (env : Env)
    (hhooks : env.hooks = {}) (hhand : env.workflow.conditionalHandlers = [])
    (hCap : ∀ k, ∃ v, env.screenCapture k = Except.ok v)
    (hreason : ∀ k msgs, ∃ resp, env.reasoning k msgs = Except.ok resp
      ∧ resp.stopReason = "tool_use") :
    ∀ (r i : Nat) (s : St),
    ∃ s', runLoop env r i s
        = .ok s' (.success (s'.ctx.iteration + 1) s'.ctx.state s'.ctx.actionHistory)
      ∧ s'.reasoningCalls = s.reasoningCalls + r
      ∧ s'.ctx.iteration = (if r = 0 then s.ctx.iteration else i + r - 1) := by
  intro r
  induction r with
  | zero =>
    intro i s
    exact ⟨s, rfl, rfl, by simp⟩
  | succ r ih =>
    intro i s
    obtain ⟨s2, htb, hit2, hrc2⟩ := runTurnBody_benign env i
      { s with ctx := { s.ctx with iteration := i }, trace := s.trace ++ [Event.iterStartFired i] }
      hhooks hhand hCap hreason
    obtain ⟨s3, hl3, hrc3, hit3⟩ := ih (i + 1) s2
    refine ⟨s3, ?_, ?_, ?_⟩
    · simp only [runLoop]
      simp only [stIterStart_empty env i { s with ctx := { s.ctx with iteration := i } } hhooks]
      simp only [htb]
      exact hl3
    · have hrc2x : s2.reasoningCalls = s.reasoningCalls + 1 := hrc2
      omega
    · have hit2x : s2.ctx.iteration = i := hit2
      have hnz : ¬(r + 1 = 0) := Nat.succ_ne_zero r
      rw [if_neg hnz]
      rcases Nat.eq_zero_or_pos r with hr | hr
      · subst hr
        simp at hit3
        omega
      · have hrne : ¬(r = 0) := Nat.pos_iff_ne_zero.mp hr
        rw [if_neg hrne] at hit3
        omega

/-- Claim C3: with a reasoning service that answers every call with a
`tool_use` stop signal (and a plain agent: no hooks or conditional
handlers registered, screen capture succeeding), `run` with
`max_iterations = n ≥ 1` performs exactly n passes — the reasoning-call
counter grows by exactly n — and then returns the exhaustion record
with its success flag set (the `RunResult.success` constructor, whose
iteration count `iterationsOf?` projects) reporting exactly n
iterations. -/
theorem c3_iteration_bound (env : Env) (goal : String) (n : Nat) (s : St)
    (hhooks : env.hooks = {}) (hhand : env.workflow.conditionalHandlers = [])
    (hCap : ∀ k, ∃ v, env.screenCapture k = Except.ok v)
    (hreason : ∀ k msgs, ∃ resp, env.reasoning k msgs = Except.ok resp
      ∧ resp.stopReason = "tool_use")
    (hn : 1 ≤ n) :
    ((ComputerUseAgent.run env goal n s).okVal?.bind RunResult.iterationsOf?) = some n
    ∧ ((ComputerUseAgent.run env goal n s).stateOf).reasoningCalls
        = s.reasoningCalls + n := by
  obtain ⟨v, hv⟩ := hCap s.screenshotCalls
  obtain ⟨s', hl, hrc, hit⟩ := runLoop_benign env hhooks hhand hCap hreason n 0
    { s with ctx := { lastScreenshot := some v }, messages := [] ++ [{ role := "user", content := [ContentBlock.image v, ContentBlock.text goal] }], screenshotCalls := s.screenshotCalls + 1, trace := s.trace ++ [Event.screenshotTaken] }
  have hrun : ComputerUseAgent.run env goal n s
      = .ok s' (.success (s'.ctx.iteration + 1) s'.ctx.state s'.ctx.actionHistory) := by
    simp only [ComputerUseAgent.run,
      takeScreenshot_empty env { s with ctx := {}, messages := [] } v hhooks hv]
    exact hl
  constructor
  · rw [hrun]
    have hne : ¬(n = 0) := by omega
    rw [if_neg hne] at hit
    simp only [ERes.okVal?, Option.some_bind, RunResult.iterationsOf?, Option.some.injEq]
    rw [hit]
    omega
  · rw [hrun]
    exact hrc

/-- Witness for C3 with `max_iterations = 3`: exactly 3 reasoning calls
and a success record reporting 3 iterations. -/
theorem c3_iteration_bound_witness :
    ((ComputerUseAgent.run loopEnv "g" 3 {}).okVal?.bind RunResult.iterationsOf?) = some 3
    ∧ ((ComputerUseAgent.run loopEnv "g" 3 {}).stateOf).reasoningCalls
        = ({} : St).reasoningCalls + 3 :=
  c3_iteration_bound loopEnv "g" 3 {} rfl rfl (fun k => ⟨"I", rfl⟩)
    (fun k msgs => ⟨{ stopReason := "tool_use", content := [] }, rfl, rfl⟩) (by decide)

theorem runCtxHooks_hist (hs : List CtxHook) (ctx : AgentContext)
    (h : ∀ f ∈ hs, ∀ c, ((f c).stateOf).actionHistory = c.actionHistory) :
    ((runCtxHooks hs ctx).stateOf).actionHistory = ctx.actionHistory := by
  induction hs generalizing ctx with
  | nil => rfl
  | cons f rest ih =>
    have hf := h f (List.mem_cons_self f rest) ctx
    cases hfc : f ctx with
    | ok c1 u =>
      rw [hfc] at hf
      simp only [runCtxHooks, hfc]
      exact (ih c1 fun g hg => h g (List.mem_cons_of_mem f hg)).trans hf
    | err c1 e =>
      rw [hfc] at hf
      simp only [runCtxHooks, hfc]
      exact hf

theorem chainMutHooks_hist (hs : List MutHook) (ctx : AgentContext) (a : ToolInput)
    (h : ∀ f ∈ hs, ∀ c a2, ((f c a2).stateOf).actionHistory = c.actionHistory) :
    ((chainMutHooks hs ctx a).stateOf).actionHistory = ctx.actionHistory := by
  induction hs generalizing ctx a with
  | nil => rfl
  | cons f rest ih =>
    have hf := h f (List.mem_cons_self f rest) ctx a
    cases hfc : f ctx a with
    | ok c1 o =>
      rw [hfc] at hf
      cases o with
      | none =>
        simp only [chainMutHooks, hfc]
        exact (ih c1 a fun g hg => h g (List.mem_cons_of_mem f hg)).trans hf
      | some a1 =>
        simp only [chainMutHooks, hfc]
        exact (ih c1 a1 fun g hg => h g (List.mem_cons_of_mem f hg)).trans hf
    | err c1 e =>
      rw [hfc] at hf
      simp only [chainMutHooks, hfc]
      exact hf

theorem triggerOnToolCall_hist (env : Env) (ctx : AgentContext) (n : String)
    (a : ToolInput) (hPH : PreservesHistory env) :
    ((env.hooks.triggerOnToolCall ctx n a).stateOf).actionHistory = ctx.actionHistory := by
  obtain ⟨h1, h2, h3, h4, h5, h6, h7, h8, h9⟩ := hPH
  simp only [HookRegistry.triggerOnToolCall]
  have hstar : ∀ f ∈ env.hooks.onToolCallStar.map (fun h => fun c a2 => h c n a2),
      ∀ c a2, ((f c a2).stateOf).actionHistory = c.actionHistory := by
    intro f hf c a2
    obtain ⟨g, hg, rfl⟩ := List.mem_map.mp hf
    exact h6 g hg c n a2
  cases hlk : List.lookup n env.hooks.onToolCall with
  | none =>
    simp only [hlk]
    exact chainMutHooks_hist _ ctx a hstar
  | some hsn =>
    simp only [hlk]
    have hnamed := chainMutHooks_hist hsn ctx a (h5 n hsn hlk)
    cases hch : chainMutHooks hsn ctx a with
    | ok c1 a1 =>
      rw [hch] at hnamed
      exact (chainMutHooks_hist _ c1 a1 hstar).trans hnamed
    | err c1 e =>
      rw [hch] at hnamed
      exact hnamed

theorem takeScreenshot_hist (env : Env) (s : St) (hPH : PreservesHistory env) :
    ((ComputerUseAgent.takeScreenshot env s).stateOf).ctx.actionHistory
      = s.ctx.actionHistory := by
  obtain ⟨h1, h2, h3, h4, h5, h6, h7, h8, h9⟩ := hPH
  simp only [ComputerUseAgent.takeScreenshot]
  have hbs := runCtxHooks_hist env.hooks.beforeScreenshot s.ctx h1
  cases hb : runCtxHooks env.hooks.beforeScreenshot s.ctx with
  | err c e =>
    rw [hb] at hbs
    simp only [hb]
    exact hbs
  | ok c u =>
    rw [hb] at hbs
    simp only [hb]
    cases hcap : env.screenCapture s.screenshotCalls with
    | error e =>
      simp only [hcap]
      exact hbs
    | ok img =>
      simp only [hcap]
      have hmap : ∀ f ∈ env.hooks.afterScreenshot.map (fun h => fun c2 => h c2 img),
          ∀ c2, ((f c2).stateOf).actionHistory = c2.actionHistory := by
        intro f hf c2
        obtain ⟨g, hg, rfl⟩ := List.mem_map.mp hf
        exact h2 g hg c2 img
      have has := runCtxHooks_hist _ { c with lastScreenshot := some img } hmap
      cases ha : runCtxHooks (env.hooks.afterScreenshot.map (fun h => fun c2 => h c2 img))
          { c with lastScreenshot := some img } with
      | err c2 e =>
        rw [ha] at has
        simp only [ha]
        exact has.trans hbs
      | ok c2 u2 =>
        rw [ha] at has
        simp only [ha]
        exact has.trans hbs

theorem runCondPairs_hist (pairs : List (CondPred × CondHandler)) (kind : String)
    (idx : Nat) (a : ToolInput) (s : St)
    (h : ∀ q ∈ pairs, (∀ c a2, ((q.1 c a2).stateOf).actionHistory = c.actionHistory)
       ∧ (∀ c a2, ((q.2 c a2).stateOf).actionHistory = c.actionHistory)) :
    (runCondPairs pairs kind idx a s).ctx.actionHistory = s.ctx.actionHistory := by
  induction pairs generalizing idx s with
  | nil => rfl
  | cons q rest ih =>
    obtain ⟨p, hh⟩ := q
    have hq := h (p, hh) (List.mem_cons_self _ _)
    have hqp : ∀ c a2, ((p c a2).stateOf).actionHistory = c.actionHistory := hq.1
    have hqh : ∀ c a2, ((hh c a2).stateOf).actionHistory = c.actionHistory := hq.2
    simp only [runCondPairs]
    rw [ih (idx + 1) _ (fun g hg => h g (List.mem_cons_of_mem _ hg))]
    have hp1 := hqp s.ctx a
    cases hpc : p s.ctx a with
    | err c e =>
      rw [hpc] at hp1
      exact hp1
    | ok c b =>
      rw [hpc] at hp1
      cases b with
      | false => exact hp1
      | true =>
        show ((hh c a).stateOf).actionHistory = s.ctx.actionHistory
        exact (hqh c a).trans hp1

theorem checkConditionalHandlers_hist (env : Env) (kind : String) (a : ToolInput)
    (s : St) (hPH : PreservesHistory env) :
    (checkConditionalHandlers env kind a s).ctx.actionHistory = s.ctx.actionHistory := by
  obtain ⟨h1, h2, h3, h4, h5, h6, h7, h8, h9⟩ := hPH
  simp only [checkConditionalHandlers]
  cases hlk : List.lookup kind env.workflow.conditionalHandlers with
  | none => rfl
  | some pairs => exact runCondPairs_hist pairs kind 0 a _ (h9 kind pairs hlk)

theorem runBuiltin_hist (env : Env) (kind : String) (mi : ToolInput)
    (execF : ToolInput → St → St × ActionResult) (s : St)
    (hPH : PreservesHistory env)
    (hshape : ∀ a s2, ∃ m r, execF a s2 = ({ s2 with robotCalls := m }, r)) :
    ((runBuiltin env kind mi execF s).stateOf).ctx.actionHistory = s.ctx.actionHistory
    ∧ ((runBuiltin env kind mi execF s).stateOf).messages = s.messages := by
  have h3 := hPH.2.2.1
  have h4 := hPH.2.2.2.1
  simp only [runBuiltin]
  have hba := chainMutHooks_hist env.hooks.beforeAction s.ctx mi h3
  cases htb : env.hooks.triggerBeforeAction s.ctx mi with
  | err c e =>
    have : ((env.hooks.triggerBeforeAction s.ctx mi).stateOf).actionHistory
        = s.ctx.actionHistory := hba
    rw [htb] at this
    simp only [htb]
    exact ⟨this, rfl⟩
  | ok c action =>
    have hcc : ((env.hooks.triggerBeforeAction s.ctx mi).stateOf).actionHistory
        = s.ctx.actionHistory := hba
    rw [htb] at hcc
    simp only [htb]
    obtain ⟨m, r, hp⟩ := hshape action
      { s with ctx := c, trace := s.trace ++ [Event.beforeActionFired] }
    simp only [hp]
    have hmap : ∀ f ∈ env.hooks.afterAction.map (fun h => fun c2 => h c2 mi r),
        ∀ c2, ((f c2).stateOf).actionHistory = c2.actionHistory := by
      intro f hf c2
      obtain ⟨g, hg, rfl⟩ := List.mem_map.mp hf
      exact h4 g hg c2 mi r
    have haa := runCtxHooks_hist _ c hmap
    cases hrc : runCtxHooks (env.hooks.afterAction.map (fun h => fun c2 => h c2 mi r)) c with
    | err c2 e =>
      rw [hrc] at haa
      simp only [hrc]
      exact ⟨haa.trans hcc, rfl⟩
    | ok c2 u =>
      rw [hrc] at haa
      simp only [hrc]
      constructor
      · simp only [ERes.stateOf]
        rw [checkConditionalHandlers_hist env kind mi _ hPH]
        exact haa.trans hcc
      · simp only [ERes.stateOf]
        rw [(checkConditionalHandlers_frame env kind mi _).2.2.2]

theorem executeTool_hist (env : Env) (toolName : String) (input : ToolInput) (s : St)
    (hPH : PreservesHistory env) :
    ((ComputerUseAgent.executeTool env toolName input s).stateOf).ctx.actionHistory
      = s.ctx.actionHistory
    ∧ ((ComputerUseAgent.executeTool env toolName input s).stateOf).messages
      = s.messages := by
  simp only [ComputerUseAgent.executeTool]
  have hotc := triggerOnToolCall_hist env s.ctx toolName input hPH
  cases hres : env.hooks.triggerOnToolCall s.ctx toolName input with
  | err c e =>
    rw [hres] at hotc
    simp only [hres]
    exact ⟨hotc, rfl⟩
  | ok c mi =>
    rw [hres] at hotc
    simp only [hres]
    by_cases ht : env.workflow.hasTool toolName = true
    · simp only [ht, if_true, ite_true]
      split <;> exact ⟨hotc, rfl⟩
    · rw [if_neg ht]
      by_cases h1 : toolName = "screenshot"
      · rw [if_pos h1]
        have hts := takeScreenshot_hist env
          { s with ctx := c, trace := s.trace ++ [Event.onToolCallFired] } hPH
        have htf := takeScreenshot_frame env
          { s with ctx := c, trace := s.trace ++ [Event.onToolCallFired] }
        split
        next s2 e hcase =>
          rw [hcase] at hts
          have hm := htf.2.2
          rw [hcase] at hm
          exact ⟨hts.trans hotc, hm⟩
        next s2 img hcase =>
          rw [hcase] at hts
          have hm := htf.2.2
          rw [hcase] at hm
          exact ⟨hts.trans hotc, hm⟩
      · rw [if_neg h1]
        by_cases h2 : toolName = "mouse_move"
        · rw [if_pos h2]
          have hrb := runBuiltin_hist env "mouse_move" mi
            (fun a s2 => ActionExecutor.mouseMove env a.x a.y s2)
            { s with ctx := c, trace := s.trace ++ [Event.onToolCallFired] } hPH
            (fun a s2 => mouseMove_shape env a.x a.y s2)
          exact ⟨hrb.1.trans hotc, hrb.2⟩
        · rw [if_neg h2]
          by_cases h3 : toolName = "click"
          · rw [if_pos h3]
            have hrb := runBuiltin_hist env "click" mi
              (fun a s2 => ActionExecutor.click env a.x a.y (a.button.getD .left)
                (a.clicks.getD 1) s2)
              { s with ctx := c, trace := s.trace ++ [Event.onToolCallFired] } hPH
              (fun a s2 => click_shape env a.x a.y (a.button.getD .left) (a.clicks.getD 1) s2)
            exact ⟨hrb.1.trans hotc, hrb.2⟩
          · rw [if_neg h3]
            by_cases h4 : toolName = "type"
            · rw [if_pos h4]
              have hrb := runBuiltin_hist env "type" mi
                (fun a s2 => ActionExecutor.typeText env a.text s2)
                { s with ctx := c, trace := s.trace ++ [Event.onToolCallFired] } hPH
                (fun a s2 => typeText_shape env a.text s2)
              exact ⟨hrb.1.trans hotc, hrb.2⟩
            · rw [if_neg h4]
              by_cases h5 : toolName = "key"
              · rw [if_pos h5]
                have hrb := runBuiltin_hist env "key" mi
                  (fun a s2 => ActionExecutor.pressKey env a.key s2)
                  { s with ctx := c, trace := s.trace ++ [Event.onToolCallFired] } hPH
                  (fun a s2 => pressKey_shape env a.key s2)
                exact ⟨hrb.1.trans hotc, hrb.2⟩
              · rw [if_neg h5]
                by_cases h6 : toolName = "scroll"
                · rw [if_pos h6]
                  have hrb := runBuiltin_hist env "scroll" mi
                    (fun a s2 => ActionExecutor.scroll env a.direction (a.amount.getD 3) a.x a.y s2)
                    { s with ctx := c, trace := s.trace ++ [Event.onToolCallFired] } hPH
                    (fun a s2 => scroll_shape env a.direction (a.amount.getD 3) a.x a.y s2)
                  exact ⟨hrb.1.trans hotc, hrb.2⟩
                · rw [if_neg h6]
                  exact ⟨hotc, rfl⟩

theorem stIterEnd_hist (env : Env) (i : Nat) (s : St) (hPH : PreservesHistory env) :
    ((stIterEnd env i s).stateOf).ctx.actionHistory = s.ctx.actionHistory
    ∧ ((stIterEnd env i s).stateOf).messages = s.messages := by
  have h8 := hPH.2.2.2.2.2.2.2.1
  simp only [stIterEnd]
  have hmap : ∀ f ∈ env.hooks.onIterationEnd.map (fun h => fun c => h c i),
      ∀ c, ((f c).stateOf).actionHistory = c.actionHistory := by
    intro f hf c
    obtain ⟨g, hg, rfl⟩ := List.mem_map.mp hf
    exact h8 g hg c i
  have hh := runCtxHooks_hist _ s.ctx hmap
  cases hc : runCtxHooks (env.hooks.onIterationEnd.map (fun h => fun c => h c i)) s.ctx with
  | err c e =>
    rw [hc] at hh
    simp only [hc]
    exact ⟨hh, rfl⟩
  | ok c u =>
    rw [hc] at hh
    simp only [hc]
    exact ⟨hh, rfl⟩

theorem processToolUseBlocks_spec (env : Env) (blocks : List ContentBlock) (s s' : St)
    (trs : List ContentBlock) (hPH : PreservesHistory env)
    (heq : processToolUseBlocks env blocks s = .ok s' trs) :
    s'.messages = s.messages
    ∧ ∃ rs, s'.ctx.actionHistory = s.ctx.actionHistory ++ rs
      ∧ rs.length = (blocks.filterMap toolUseOf).length
      ∧ trs = List.zipWith
          (fun u r => ContentBlock.toolResult u.1 (toolResultContentFor u.2.1 r))
          (blocks.filterMap toolUseOf) rs := by
  induction blocks generalizing s s' trs with
  | nil =>
    simp only [processToolUseBlocks] at heq
    injection heq with hs htr
    subst hs
    subst htr
    exact ⟨rfl, [], by simp, rfl, rfl⟩
  | cons b rest ih =>
    cases b with
    | toolUse id name inp =>
      simp only [processToolUseBlocks] at heq
      split at heq
      next s1 e => exact ERes.noConfusion heq
      next s1 result hexec =>
        split at heq
        next s3 e2 => exact ERes.noConfusion heq
        next s3 trs0 hrest =>
          injection heq with hs htr
          subst hs
          subst htr
          obtain ⟨hmsg, rs, hh, hlen, hz⟩ := ih _ _ _ hrest
          have hex := executeTool_hist env name inp s hPH
          have hhist1 : s1.ctx.actionHistory = s.ctx.actionHistory := by
            have := hex.1
            rw [hexec] at this
            exact this
          have hmsg1 : s1.messages = s.messages := by
            have := hex.2
            rw [hexec] at this
            exact this
          have hh2 : s3.ctx.actionHistory = (s1.ctx.actionHistory ++ [result]) ++ rs := hh
          refine ⟨hmsg.trans hmsg1, result :: rs, ?_, ?_, ?_⟩
          · rw [hh2, hhist1]
            simp
          · simp only [List.filterMap_cons, toolUseOf, List.length_cons]
            rw [hlen]
          · simp only [List.filterMap_cons, toolUseOf, List.zipWith_cons_cons]
            rw [hz]
    | image b64 =>
      simp only [processToolUseBlocks] at heq
      obtain ⟨hm, rs, hh, hlen, hz⟩ := ih _ _ _ heq
      refine ⟨hm, rs, hh, ?_, ?_⟩
      · simpa [toolUseOf] using hlen
      · simpa [toolUseOf] using hz
    | text t =>
      simp only [processToolUseBlocks] at heq
      obtain ⟨hm, rs, hh, hlen, hz⟩ := ih _ _ _ heq
      refine ⟨hm, rs, hh, ?_, ?_⟩
      · simpa [toolUseOf] using hlen
      · simpa [toolUseOf] using hz
    | toolResult tid content =>
      simp only [processToolUseBlocks] at heq
      obtain ⟨hm, rs, hh, hlen, hz⟩ := ih _ _ _ heq
      refine ⟨hm, rs, hh, ?_, ?_⟩
      · simpa [toolUseOf] using hlen
      · simpa [toolUseOf] using hz

/-- Claim C1: in a turn whose assistant reply carries the `tool_use`
stop signal and which completes normally, with callbacks that respect
the context contract of never replacing the action history
(`PreservesHistory`), the loop appends exactly the assistant message
followed by one user message; that user message holds one `tool_result`
block per `tool_use` block of the reply, keyed by the same ids in the
same order (the zipWith pairing), and `actionHistory` is extended — its
old prefix untouched — by exactly one `ActionResult` per `tool_use`
block, in that order, the i-th `tool_result` reporting the i-th
appended result. -/
theorem c1_tool_result_pairing (env : Env) (i : Nat) (s s' : St) (sig : TurnSignal)
    (resp : ReasoningResponse)
    (hPH : PreservesHistory env)
    (hre : env.reasoning s.reasoningCalls s.messages = Except.ok resp)
    (hsr : resp.stopReason = "tool_use")
    (heq : runTurnBody env i s = .ok s' sig) :
    s'.ctx.actionHistory.take s.ctx.actionHistory.length = s.ctx.actionHistory
    ∧ (s'.ctx.actionHistory.drop s.ctx.actionHistory.length).length
        = (resp.content.filterMap toolUseOf).length
    ∧ s'.messages = s.messages
        ++ [{ role := "assistant", content := resp.content },
            { role := "user", content := pairedToolResults (resp.content.filterMap toolUseOf) (s'.ctx.actionHistory.drop s.ctx.actionHistory.length) }] := by
  have hne : ¬(resp.stopReason = "end_turn") := by
    rw [hsr]
    decide
  simp only [runTurnBody, hre] at heq
  rw [if_neg hne, if_pos hsr] at heq
  split at heq
  next s2 e => exact ERes.noConfusion heq
  next s2 trs hptu =>
    split at heq
    next s4 e2 => exact ERes.noConfusion heq
    next s4 u hie =>
      injection heq with hs hsig
      subst hs
      obtain ⟨hmsg, rs, hh, hlen, hz⟩ :=
        processToolUseBlocks_spec env resp.content _ s2 trs hPH hptu
      have hie2 := stIterEnd_hist env i
        { s2 with messages := s2.messages ++ [{ role := "user", content := trs }] } hPH
      rw [hie] at hie2
      have hh2 : s2.ctx.actionHistory = s.ctx.actionHistory ++ rs := hh
      have hmsg2 : s2.messages
          = s.messages ++ [{ role := "assistant", content := resp.content }] := hmsg
      have hhist : s4.ctx.actionHistory = s.ctx.actionHistory ++ rs := by
        have h1 : s4.ctx.actionHistory = s2.ctx.actionHistory := hie2.1
        exact h1.trans hh2
      have hdrop : s4.ctx.actionHistory.drop s.ctx.actionHistory.length = rs := by
        rw [hhist]
        exact List.drop_left _ _
      refine ⟨?_, ?_, ?_⟩
      · rw [hhist]
        exact List.take_left _ _
      · rw [hdrop]
        exact hlen
      · simp only [pairedToolResults]
        rw [hdrop, ← hz]
        have hm : s4.messages = s2.messages ++ [{ role := "user", content := trs }] :=
          hie2.2
        rw [hm, hmsg2]
        simp

theorem preservesHistory_empty (env : Env) (hhooks : env.hooks = {})
    (hhand : env.workflow.conditionalHandlers = []) : PreservesHistory env := by
  unfold PreservesHistory
  rw [hhooks, hhand]
  refine ⟨?_, ?_, ?_, ?_, ?_, ?_, ?_, ?_, ?_⟩ <;> simp [HookRegistry.onToolCall]

/-- Witness for C1: a reply with two `tool_use` blocks (ids "a", "b")
dispatched from the empty initial state — the history prefix is
preserved, two results are appended, and the user message pairs them in
order. -/
theorem c1_tool_result_pairing_witness :
    ((runTurnBody turnEnv 0 {}).stateOf).ctx.actionHistory.take (({} : St).ctx.actionHistory.length) = ({} : St).ctx.actionHistory
    ∧ (((runTurnBody turnEnv 0 {}).stateOf).ctx.actionHistory.drop (({} : St).ctx.actionHistory.length)).length = (twoToolResp.content.filterMap toolUseOf).length
    ∧ ((runTurnBody turnEnv 0 {}).stateOf).messages = ({} : St).messages ++ [{ role := "assistant", content := twoToolResp.content }, { role := "user", content := pairedToolResults (twoToolResp.content.filterMap toolUseOf) (((runTurnBody turnEnv 0 {}).stateOf).ctx.actionHistory.drop (({} : St).ctx.actionHistory.length)) }] :=
  c1_tool_result_pairing turnEnv 0 {} ((runTurnBody turnEnv 0 {}).stateOf) .continueLoop
    twoToolResp (preservesHistory_empty turnEnv rfl rfl) rfl rfl rfl
